import Mathlib

/-!
Verification development for the portfolio-analyzer holdings resolution and
aggregation pipeline.

The Python services are shallowly embedded as pure Lean functions:

* money and weights (`Decimal` and `float` in the source) are modelled as
  exact rationals (`ℚ`); `round(x, n)` is modelled as round-half-to-even on
  rationals, matching the documented behaviour of Python rounding on
  decimally-representable values;
* the external market-data providers (yfinance, mstarpy) are parameters:
  a provider is a function from a query string to an optional response,
  where `none` models an exception, an empty response, or a missing fund;
* persistent dictionaries (the stock-info cache, the aggregation maps) are
  association lists with Python-dict update semantics (update in place,
  append new keys at the end, preserving insertion order);
* database tables are lists of records; SQLAlchemy queries are filters and
  folds over those lists.
-/

/-- Association-list lookup, modelling Python `dict.get` / `in`. -/
def lookupA {α : Type} (m : List (String × α)) (k : String) : Option α :=
  (m.find? (fun p => p.1 == k)).map (fun p => p.2)

/-- Association-list update, modelling Python dict assignment: an existing
key keeps its position and gets the new value, a new key is appended. -/
def insertA {α : Type} : List (String × α) → String → α → List (String × α)
  | [], k, v => [(k, v)]
  | (k', v') :: rest, k, v =>
      if k' == k then (k', v) :: rest else (k', v') :: insertA rest k v

/-- Key membership for an association list (Python `k in d`). -/
def memA {α : Type} (m : List (String × α)) (k : String) : Bool :=
  (lookupA m k).isSome

/-- Substring test on character lists: does `sub` occur inside `l`? -/
def subList : List Char → List Char → Bool
  | _, [] => true
  | [], _ :: _ => false
  | a :: as, b :: bs => (List.isPrefixOf (b :: bs) (a :: as)) || subList as (b :: bs)

/-- Substring test on strings, modelling Python `sub in s`. -/
def containsStr (s sub : String) : Bool :=
  subList s.data sub.data


/-- Python `str.strip()`: drop surrounding whitespace. -/
def strTrim (s : String) : String :=
  String.mk (((s.data.dropWhile Char.isWhitespace).reverse.dropWhile Char.isWhitespace).reverse)

/-- Python `str.upper()` (ASCII casing). -/
def strUpper (s : String) : String := String.mk (s.data.map Char.toUpper)

/-- Python `str.lower()` (ASCII casing). -/
def strLower (s : String) : String := String.mk (s.data.map Char.toLower)

/-- Python `str.startswith`. -/
def strStartsWith (s p : String) : Bool := List.isPrefixOf p.data s.data

/-- Python `str.endswith`. -/
def strEndsWith (s p : String) : Bool := List.isSuffixOf p.data s.data

/-- Is the character contained in the string? -/
def strContainsChar (s : String) (c : Char) : Bool := s.data.contains c

/-- Python `str.replace` on a nonempty pattern (fueled structural
recursion; the fuel is the input length, which always suffices). -/
def pyReplaceF (pattern replacement : List Char) : ℕ → List Char → List Char
  | 0, cs => cs
  | _ + 1, [] => []
  | fuel + 1, c :: rest =>
      if List.isPrefixOf pattern (c :: rest) then
        replacement ++ pyReplaceF pattern replacement fuel (List.drop (pattern.length - 1) rest)
      else c :: pyReplaceF pattern replacement fuel rest

/-- Python `str.replace`. -/
def pyReplace (s pattern replacement : String) : String :=
  String.mk (pyReplaceF pattern.data replacement.data s.data.length s.data)

/-- Python `str.split(sep)` with a nonempty separator (fueled). -/
def splitOnF (sep : List Char) : ℕ → List Char → List Char → List (List Char)
  | 0, acc, cs => [acc.reverse ++ cs]
  | _ + 1, acc, [] => [acc.reverse]
  | fuel + 1, acc, c :: rest =>
      if List.isPrefixOf sep (c :: rest) then
        acc.reverse :: splitOnF sep fuel [] (List.drop (sep.length - 1) rest)
      else splitOnF sep fuel (c :: acc) rest

/-- Python `str.split(sep)`. -/
def strSplitOn (s sep : String) : List String :=
  (splitOnF sep.data (s.data.length + 1) [] s.data).map String.mk

/-- Python `str` truthiness: a string is truthy when it is nonempty. -/
def pyTruthy (s : String) : Bool := s != ""

/-- Truthiness of `Option String` (Python `None` or a string). -/
def pyTruthyO (s : Option String) : Bool :=
  match s with
  | none => false
  | some t => pyTruthy t

/-- Round a rational to the nearest integer, ties to even: the behaviour of
Python `round` on exactly representable values. -/
def roundHalfEven (q : ℚ) : ℤ :=
  if q - ⌊q⌋ < 1/2 then ⌊q⌋
  else if q - ⌊q⌋ > 1/2 then ⌊q⌋ + 1
  else if ⌊q⌋ % 2 = 0 then ⌊q⌋ else ⌊q⌋ + 1

/-- Python `round(q, n)` on rationals. -/
def pyRound (n : ℕ) (q : ℚ) : ℚ :=
  (roundHalfEven (q * (10 : ℚ) ^ n) : ℚ) / (10 : ℚ) ^ n

/-- One constituent record as stored in a fund holding's
`underlying_holdings` payload.  The optional enrichment fields model dict
keys that may be absent (`underlying.get('sector')` is `None` for a record
produced by constituent resolution before enrichment). -/
structure Constituent where
  symbol : String
  name : String
  weight : ℚ
  value : ℚ
  shares : Option ℚ := none
  sector : Option String := none
  industry : Option String := none
  country : Option String := none
  geography : Option String := none
deriving Repr, DecidableEq

/-- Result of `_search_us_fund`: the selected fund match. -/
structure FundInfo where
  securityID : String
  ticker : String
  name : String
  exchange : String
  dbAssetType : String
deriving Repr, DecidableEq

/-- One row of the Morningstar holdings DataFrame; `none` fields model
`NaN`/missing cells. -/
structure ProviderRow where
  ticker : Option String := none
  secId : Option String := none
  securityName : Option String := none
  weighting : Option ℚ := none
deriving Repr, DecidableEq

/-- Result dict of `HoldingsResolver.resolve_holding`: `holdings` is `None`
when the fund was found but no usable holdings data exists. -/
structure FundResult where
  holdings : Option (List Constituent)
  verifiedAssetType : String
deriving Repr, DecidableEq

/-- Row processing inside `resolve_holding` (STEP 4): ticker from the
`ticker` column, falling back to `secId`; rows without a ticker or with a
raw percentage weight of zero are skipped. -/
def processRow (totalValue : ℚ) (row : ProviderRow) : Option Constituent :=
  let ticker0 : Option String :=
    match row.ticker with
    | some t => if strTrim t != "" then some (strUpper (strTrim t)) else
        (match row.secId with
         | some s => if strTrim s != "" then some (strUpper (strTrim s)) else none
         | none => none)
    | none =>
        match row.secId with
        | some s => if strTrim s != "" then some (strUpper (strTrim s)) else none
        | none => none
  let name : String :=
    match row.securityName with
    | some n => strTrim n
    | none => ""
  let weight : ℚ := row.weighting.getD 0
  match ticker0 with
  | none => none
  | some tk =>
      if weight = 0 then none
      else
        let weightDecimal := weight / 100
        let estimatedValue := totalValue * weightDecimal
        some { symbol := tk
               name := if name != "" then name else tk
               weight := pyRound 6 weightDecimal
               value := pyRound 2 estimatedValue
               shares := none }

/-- Stable insertion into a weight-descending list (`list.sort(key=weight,
reverse=True)` is stable). -/
def insertDescW : List Constituent → Constituent → List Constituent
  | [], c => [c]
  | d :: ds, c => if c.weight > d.weight then c :: d :: ds else d :: insertDescW ds c

/-- Stable sort by weight, descending. -/
def sortByWeightDesc (l : List Constituent) : List Constituent :=
  l.foldl insertDescW []

/-- `HoldingsResolver.resolve_holding`: `search` models `_search_us_fund`
(`none` = no fund found or an exception), `table` models fetching the
holdings DataFrame for a security id (`none` = both the equity and the
unrestricted holdings fetch were `None`/empty). -/
def resolveHolding (search : String → Option FundInfo)
    (table : String → Option (List ProviderRow))
    (symbol assetType : String) (totalValue : ℚ) : Option FundResult :=
  if assetType != "etf" && assetType != "mutual_fund" then none
  else
    match search symbol with
    | none => none
    | some fi =>
        let verified := fi.dbAssetType
        match table fi.securityID with
        | none => some ⟨none, verified⟩
        | some rows =>
            if rows.isEmpty then some ⟨none, verified⟩
            else
              let underlying := rows.filterMap (processRow totalValue)
              if underlying.isEmpty then some ⟨none, verified⟩
              else some ⟨some (sortByWeightDesc underlying), verified⟩

/-!  ## SecurityInfoCache (`stock_info_service.StockInfoService`)

The yfinance `Ticker(...).info` call is the `provider` parameter; `none`
models an exception, a `None` result or an empty info dict.  Each provider
invocation is counted as one external call.  The rate limiter and the
request delay are real-time sleeps and are not modelled.
-/

/-- `StockInfoService.US_COUNTRIES`. -/
def usCountries : List String :=
  ["United States", "USA", "US", "United States of America"]

/-- `StockInfoService.DEVELOPED_INTERNATIONAL`. -/
def developedInternational : List String :=
  ["United Kingdom", "UK", "Great Britain", "GBR",
   "Germany", "DEU", "Federal Republic of Germany",
   "France", "FRA", "Switzerland", "CHE", "Netherlands", "NLD",
   "Sweden", "SWE", "Norway", "NOR", "Denmark", "DNK", "Finland", "FIN",
   "Belgium", "BEL", "Austria", "AUT", "Ireland", "IRL", "Spain", "ESP",
   "Italy", "ITA", "Portugal", "PRT", "Luxembourg", "LUX",
   "Japan", "JPN", "Australia", "AUS", "Singapore", "SGP",
   "Hong Kong", "HKG", "New Zealand", "NZL",
   "South Korea", "Korea, Republic of", "KOR",
   "Canada", "CAN", "Israel", "ISR"]

/-- `StockInfoService.EMERGING_MARKETS`. -/
def emergingMarkets : List String :=
  ["China", "CHN", "People\x27s Republic of China",
   "India", "IND", "Taiwan", "TWN", "Indonesia", "IDN",
   "Thailand", "THA", "Malaysia", "MYS", "Philippines", "PHL",
   "Vietnam", "VNM", "Brazil", "BRA", "Mexico", "MEX", "Chile", "CHL",
   "Colombia", "COL", "Peru", "PER", "Argentina", "ARG",
   "Russia", "RUS", "Russian Federation", "Turkey", "TUR",
   "Poland", "POL", "Czech Republic", "CZE", "Czechia",
   "Hungary", "HUN", "South Africa", "ZAF", "Saudi Arabia", "SAU",
   "United Arab Emirates", "ARE", "UAE", "Qatar", "QAT",
   "Egypt", "EGY", "Kuwait", "KWT"]

/-- `StockInfoService.TICKER_SUFFIX_COUNTRY`, in dict insertion order. -/
def tickerSuffixCountry : List (String × String) :=
  [(".T", "Japan"), (".L", "United Kingdom"), (".DE", "Germany"),
   (".PA", "France"), (".AS", "Netherlands"), (".SW", "Switzerland"),
   (".MI", "Italy"), (".MC", "Spain"), (".HK", "Hong Kong"),
   (".SS", "China"), (".SZ", "China"), (".TW", "Taiwan"),
   (".KS", "South Korea"), (".AX", "Australia"), (".TO", "Canada"),
   (".SI", "Singapore"), (".NS", "India"), (".BO", "India"),
   (".SA", "Brazil"), (".MX", "Mexico"), (".JK", "Indonesia"),
   (".BK", "Thailand"), (".KL", "Malaysia")]

/-- `StockInfoService._normalize_ticker`. -/
def normalizeTicker (symbol : String) : String :=
  if !pyTruthy symbol then symbol
  else
    let s := strUpper (strTrim symbol)
    if strContainsChar s '.' then
      match strSplitOn s "." with
      | [base, sfx] =>
          if (tickerSuffixCountry.map (fun p => p.1)).contains ("." ++ sfx) then s
          else if sfx.length == 1 && sfx.data.all Char.isAlpha then
            base ++ "-" ++ sfx
          else if ["PR", "WS", "UN", "W", "U"].contains sfx then
            base ++ "-" ++ sfx
          else s
      | _ => s
    else s

/-- `StockInfoService._get_ticker_variants`. -/
def getTickerVariants (symbol : String) : List String :=
  let variants := [symbol]
  let variants :=
    if strContainsChar symbol '-' then variants ++ [pyReplace symbol "-" "."] else variants
  let variants :=
    if strContainsChar symbol '.' then
      let dashVersion := pyReplace symbol "." "-"
      if variants.contains dashVersion then variants else variants ++ [dashVersion]
    else variants
  if strContainsChar symbol '-' || strContainsChar symbol '.' then
    let base := ((strSplitOn ((strSplitOn symbol "-").headD symbol) ".").headD symbol)
    if variants.contains base then variants else variants ++ [base]
  else variants

/-- `StockInfoService._infer_country_from_ticker`. -/
def inferCountryFromTicker (symbol : String) : Option String :=
  if !pyTruthy symbol || !strContainsChar symbol '.' then none
  else (tickerSuffixCountry.find? (fun p => strEndsWith (strUpper symbol) p.1)).map (fun p => p.2)

/-- `StockInfoService._map_country_to_geography`. -/
def mapCountryToGeography (country : String) : String :=
  if !pyTruthy country || country == "Unknown" then "Unknown"
  else
    let c := strTrim country
    if usCountries.contains c || containsStr c "United States" then "US"
    else if developedInternational.contains c then "International Developed"
    else if emergingMarkets.contains c then "Emerging Markets"
    else "International Developed"

/-- A sector/industry/country/geography record, as stored in the cache and
returned by `get_stock_info`. -/
structure StockInfo where
  sector : String
  industry : String
  country : String
  geography : String
deriving Repr, DecidableEq

/-- `StockInfoService._is_cache_complete`: at least one of sector/country is
a real value. -/
def isCacheComplete (data : StockInfo) : Bool :=
  (pyTruthy data.sector && data.sector != "Unknown" && data.sector != "N/A") ||
  (pyTruthy data.country && data.country != "Unknown" && data.country != "N/A")

/-- The yfinance `ticker.info` response fields the service reads; `none`
models an absent key. -/
structure RawInfo where
  sector : Option String := none
  category : Option String := none
  industry : Option String := none
  country : Option String := none
  longName : Option String := none
  shortName : Option String := none
deriving Repr, DecidableEq

/-- The meaningful-response check in `get_stock_info`: skip a variant whose
info dict has none of sector/country/industry and no long/short name. -/
def rawMeaningful (raw : RawInfo) : Bool :=
  !(raw.sector.isNone && raw.country.isNone && raw.industry.isNone
    && raw.longName.isNone && raw.shortName.isNone)

/-- Field extraction and cleanup for one successful variant response. -/
def extractInfo (raw : RawInfo) (originalSymbol : String) : StockInfo :=
  let sector0 := raw.sector
  let sector1 :=
    if !pyTruthyO sector0 || sector0 == some "Unknown" then raw.category.getD "Unknown"
    else sector0.getD "Unknown"
  let industry0 := raw.industry.getD "Unknown"
  let country0 := raw.country.getD "Unknown"
  let country1 :=
    if country0 == "Unknown" || !pyTruthy country0 then
      match inferCountryFromTicker originalSymbol with
      | some c => c
      | none => country0
    else country0
  let sector := if pyTruthy sector1 && sector1 != "Unknown" then strTrim sector1 else "Unknown"
  let industry := if pyTruthy industry0 && industry0 != "Unknown" then strTrim industry0 else "Unknown"
  let country := if pyTruthy country1 && country1 != "Unknown" then strTrim country1 else "Unknown"
  ⟨sector, industry, country, mapCountryToGeography country⟩

/-- The persistent symbol cache. -/
abbrev Cache := List (String × StockInfo)

/-- The cache check at the top of `get_stock_info`: the first of the probed
keys that is present and complete wins; a present-but-incomplete entry is
skipped ("will retry"). -/
def cacheProbe (cache : Cache) (keys : List String) : Option StockInfo :=
  keys.findSome? (fun k =>
    match lookupA cache k with
    | some e => if isCacheComplete e then some e else none
    | none => none)

/-- Result of one `get_stock_info` call: the returned record, the cache
afterwards, and the number of external provider calls made. -/
structure FetchOut where
  info : StockInfo
  cache : Cache
  calls : ℕ
deriving Repr, DecidableEq

/-- The all-variants-failed tail of `get_stock_info`: infer the country from
the ticker suffix, else cache and return the Unknown placeholder. -/
def fetchFallback (originalSymbol : String) (cache : Cache) (calls : ℕ) : FetchOut :=
  match inferCountryFromTicker originalSymbol with
  | some c =>
      let result : StockInfo := ⟨"Unknown", "Unknown", c, mapCountryToGeography c⟩
      ⟨result, insertA cache originalSymbol result, calls⟩
  | none =>
      let placeholder : StockInfo := ⟨"Unknown", "Unknown", "Unknown", "Unknown"⟩
      ⟨placeholder, insertA cache originalSymbol placeholder, calls⟩

/-- The variant loop of `get_stock_info`.  Every iteration consults the
provider once; a complete result is cached under the original (and, when
different, the normalized) symbol and returned. -/
def tryVariants (provider : String → Option RawInfo) (cache : Cache)
    (originalSymbol normalized : String) : List String → ℕ → FetchOut
  | [], calls => fetchFallback originalSymbol cache calls
  | v :: rest, calls =>
      match provider v with
      | none => tryVariants provider cache originalSymbol normalized rest (calls + 1)
      | some raw =>
          if !rawMeaningful raw then
            tryVariants provider cache originalSymbol normalized rest (calls + 1)
          else
            let result := extractInfo raw originalSymbol
            if isCacheComplete result then
              let cache1 := insertA cache originalSymbol result
              let cache2 :=
                if normalized != originalSymbol then insertA cache1 normalized result
                else cache1
              ⟨result, cache2, calls + 1⟩
            else tryVariants provider cache originalSymbol normalized rest (calls + 1)

/-- The cache-miss path of `get_stock_info`: the variant list (with the
original symbol put first when absent) is tried against the provider. -/
def getStockInfoMiss (provider : String → Option RawInfo) (cache : Cache)
    (originalSymbol normalized : String) : FetchOut :=
  tryVariants provider cache originalSymbol normalized
    (if (getTickerVariants normalized).contains originalSymbol then
      getTickerVariants normalized
     else originalSymbol :: getTickerVariants normalized) 0

/-- `StockInfoService.get_stock_info`.  Note that the source never returns
`None`: every path ends in a record (possibly the Unknown placeholder). -/
def getStockInfo (provider : String → Option RawInfo) (cache : Cache)
    (symbol : String) (forceRefresh : Bool) : FetchOut :=
  let originalSymbol := if pyTruthy symbol then strUpper (strTrim symbol) else symbol
  let normalized := normalizeTicker symbol
  match (if forceRefresh then none else cacheProbe cache [originalSymbol, normalized]) with
  | some e => ⟨e, cache, 0⟩
  | none => getStockInfoMiss provider cache originalSymbol normalized

/-!  ## JSON payloads (`models.Holding.underlying_holdings_list`)

`json.loads` / `json.dumps` are modelled by a small JSON value type and a
fueled recursive-descent reader.  The model covers the JSON subset relevant
to the stored payloads (null, booleans, decimal numbers without exponents,
escaped strings, arrays, objects); a `none` result models
`json.JSONDecodeError`.
-/

/-- A parsed Python JSON value. -/
inductive PyJson where
  | null
  | bool (b : Bool)
  | num (q : ℚ)
  | str (s : String)
  | arr (l : List PyJson)
  | obj (fields : List (String × PyJson))
deriving Repr

/-- JSON whitespace skipping. -/
def skipWs (cs : List Char) : List Char :=
  cs.dropWhile (fun c => c == ' ' || c == '\t' || c == '\n' || c == '\r')

/-- Read a JSON string body (after the opening quote), decoding the basic
backslash escapes. -/
def readStr : List Char → Option (List Char × List Char)
  | [] => none
  | '"' :: rest => some ([], rest)
  | '\\' :: e :: rest2 =>
      let dec : Option Char :=
        if e == '"' then some '"'
        else if e == '\\' then some '\\'
        else if e == '/' then some '/'
        else if e == 'n' then some '\n'
        else if e == 't' then some '\t'
        else if e == 'r' then some '\r'
        else if e == 'b' then some (Char.ofNat 8)
        else if e == 'f' then some (Char.ofNat 12)
        else none
      match dec with
      | none => none
      | some d => (readStr rest2).map (fun p => (d :: p.1, p.2))
  | '\\' :: [] => none
  | c :: rest => (readStr rest).map (fun p => (c :: p.1, p.2))

/-- Numeric value of a digit run. -/
def digitsVal (ds : List Char) : ℕ :=
  ds.foldl (fun acc c => acc * 10 + (c.toNat - '0'.toNat)) 0

/-- Read a JSON number (optional minus, integer part, optional fraction). -/
def readNum (cs : List Char) : Option (ℚ × List Char) :=
  let (neg, cs1) :=
    match cs with
    | '-' :: r => (true, r)
    | _ => (false, cs)
  let ds := cs1.takeWhile Char.isDigit
  let cs2 := cs1.dropWhile Char.isDigit
  if ds.isEmpty then none
  else
    let intPart : ℚ := (digitsVal ds : ℚ)
    let (value, rest) :=
      match cs2 with
      | '.' :: r =>
          let fs := r.takeWhile Char.isDigit
          let cs3 := r.dropWhile Char.isDigit
          if fs.isEmpty then ((intPart, cs2) : ℚ × List Char)
          else ((intPart + (digitsVal fs : ℚ) / (10 : ℚ) ^ fs.length, cs3) : ℚ × List Char)
      | _ => (intPart, cs2)
    some (if neg then -value else value, rest)

mutual

/-- Read one JSON value. -/
def readValue : ℕ → List Char → Option (PyJson × List Char)
  | 0, _ => none
  | fuel + 1, cs =>
      match skipWs cs with
      | [] => none
      | c :: rest =>
          if c == 'n' then
            if List.isPrefixOf "ull".data rest then some (.null, rest.drop 3) else none
          else if c == 't' then
            if List.isPrefixOf "rue".data rest then some (.bool true, rest.drop 3) else none
          else if c == 'f' then
            if List.isPrefixOf "alse".data rest then some (.bool false, rest.drop 4) else none
          else if c == '"' then
            (readStr rest).map (fun p => (.str (String.mk p.1), p.2))
          else if c == '\x7b' then
            readObjBody fuel rest
          else if c == '[' then
            readArrBody fuel rest
          else
            (readNum (c :: rest)).map (fun p => (.num p.1, p.2))

/-- Read an array after the opening bracket. -/
def readArrBody : ℕ → List Char → Option (PyJson × List Char)
  | 0, _ => none
  | fuel + 1, cs =>
      match skipWs cs with
      | ']' :: rest => some (.arr [], rest)
      | cs1 => (readArrItems fuel cs1).map (fun p => (.arr p.1, p.2))

/-- Read comma-separated array items. -/
def readArrItems : ℕ → List Char → Option (List PyJson × List Char)
  | 0, _ => none
  | fuel + 1, cs =>
      match readValue fuel cs with
      | none => none
      | some (v, rest) =>
          match skipWs rest with
          | ',' :: rest2 =>
              (readArrItems fuel rest2).map (fun p => (v :: p.1, p.2))
          | ']' :: rest2 => some ([v], rest2)
          | _ => none

/-- Read an object after the opening brace. -/
def readObjBody : ℕ → List Char → Option (PyJson × List Char)
  | 0, _ => none
  | fuel + 1, cs =>
      match skipWs cs with
      | '\x7d' :: rest => some (.obj [], rest)
      | cs1 => (readObjItems fuel cs1).map (fun p => (.obj p.1, p.2))

/-- Read comma-separated object members. -/
def readObjItems : ℕ → List Char → Option (List (String × PyJson) × List Char)
  | 0, _ => none
  | fuel + 1, cs =>
      match skipWs cs with
      | '"' :: rest =>
          match readStr rest with
          | none => none
          | some (key, rest1) =>
              match skipWs rest1 with
              | ':' :: rest2 =>
                  match readValue fuel rest2 with
                  | none => none
                  | some (v, rest3) =>
                      match skipWs rest3 with
                      | ',' :: rest4 =>
                          (readObjItems fuel rest4).map
                            (fun p => ((String.mk key, v) :: p.1, p.2))
                      | '\x7d' :: rest4 => some ([(String.mk key, v)], rest4)
                      | _ => none
              | _ => none
      | _ => none

end

/-- `json.loads` on a string: parse one value and require only whitespace
afterwards. -/
def jsonParse (s : String) : Option PyJson :=
  match readValue (s.length + 2) s.data with
  | none => none
  | some (v, rest) => if (skipWs rest).isEmpty then some v else none

/-- `Holding.underlying_holdings_list` (the property getter): the stored
TEXT column is `none` (SQL NULL) or a string; a falsy value or a
`JSONDecodeError` yields the empty list, otherwise the parsed JSON value is
returned as-is. -/
def underlyingHoldingsList (stored : Option String) : PyJson :=
  match stored with
  | none => PyJson.arr []
  | some s =>
      if !pyTruthy s then PyJson.arr []
      else
        match jsonParse s with
        | some v => v
        | none => PyJson.arr []

/-!  ## Data model -/

/-- Modelled from the spec: the `Holding` row.  The `models.py` copy in this
tree is missing the enrichment columns `sector`, `industry`, `country` and
the `info_fetched` flag that every service (resolver, aggregator, routes)
reads and writes; they are modelled here from the data-model section of the
spec.  All other fields follow `models.Holding`.  The `underlying_holdings`
TEXT column together with its JSON property accessors is modelled at the
parsed level as `Option (List Constituent)`; re-serializing an unchanged
list is the identity in this model. -/
structure Holding where
  id : ℕ
  portfolioSnapshotId : ℕ
  symbol : String
  name : String
  quantity : ℚ
  price : ℚ
  totalValue : ℚ
  assetType : String
  accountType : Option String := none
  sector : Option String := none
  industry : Option String := none
  country : Option String := none
  underlying : Option (List Constituent) := none
  underlyingParsed : Bool := false
  infoFetched : Bool := false
deriving Repr, DecidableEq

/-- `holding.underlying_holdings_list` at the parsed level: NULL parses to
the empty list. -/
def Holding.underlyingList (h : Holding) : List Constituent :=
  h.underlying.getD []

/-!  ## ResolutionTracker (`resolution_tracker.py`)

Timestamps and the status file are not modelled (real time and disk I/O);
all counter and state-flag updates follow the source.
-/

/-- One entry of the tracker's bounded error list. -/
structure TrackerError where
  symbol : String
  error : String
deriving Repr, DecidableEq

/-- The module-wide `_current_status` record. -/
structure Tracker where
  isRunning : Bool := false
  snapshotId : Option ℕ := none
  currentStep : Option String := none
  currentSymbol : Option String := none
  symbolsProcessed : ℕ := 0
  symbolsTotal : ℕ := 0
  parentTotal : ℕ := 0
  parentProcessed : ℕ := 0
  underlyingTotal : ℕ := 0
  underlyingProcessed : ℕ := 0
  cachedHits : ℕ := 0
  apiCalls : ℕ := 0
  errors : List TrackerError := []
  completionMessage : Option String := none
deriving Repr, DecidableEq

/-- `start_resolution`: reset to a fresh running status. -/
def startResolution (snapshotId totalSymbols parentTotal underlyingTotal : ℕ) : Tracker :=
  { isRunning := true
    snapshotId := some snapshotId
    currentStep := some "initializing"
    currentSymbol := none
    symbolsProcessed := 0
    symbolsTotal := totalSymbols
    parentTotal := parentTotal
    parentProcessed := 0
    underlyingTotal := underlyingTotal
    underlyingProcessed := 0
    cachedHits := 0
    apiCalls := 0
    errors := []
    completionMessage := none }

/-- `update_progress`; optional keyword arguments are `Option` parameters.
The `message` keyword is accepted by the source but never stored.  Note the
source counts every non-cached update as an api call in the tracker. -/
def updateProgress (t : Tracker) (step : String) (symbol : Option String)
    (processed total parentProcessed underlyingProcessed underlyingTotal : Option ℕ)
    (cached : Bool) : Tracker :=
  let t := { t with currentStep := some step }
  let t := match symbol with
    | some s => { t with currentSymbol := some s }
    | none => t
  let t := match processed with
    | some p => { t with symbolsProcessed := p }
    | none => t
  let t := match total with
    | some x => { t with symbolsTotal := x }
    | none => t
  let t := match parentProcessed with
    | some x => { t with parentProcessed := x }
    | none => t
  let t := match underlyingProcessed with
    | some x => { t with underlyingProcessed := x }
    | none => t
  let t := match underlyingTotal with
    | some x => { t with underlyingTotal := x }
    | none => t
  if cached then { t with cachedHits := t.cachedHits + 1 }
  else { t with apiCalls := t.apiCalls + 1 }

/-- Keep the last `n` elements of a list (Python `l[-n:]`). -/
def lastN {α : Type} (n : ℕ) (l : List α) : List α :=
  l.drop (l.length - n)

/-- `log_error`: append and keep only the most recent 50 errors. -/
def logError (t : Tracker) (symbol error : String) : Tracker :=
  { t with errors := lastN 50 (t.errors ++ [⟨symbol, error⟩]) }

/-- `complete_resolution`. -/
def completeResolution (t : Tracker) (success : Bool) (message : Option String) : Tracker :=
  let t := { t with isRunning := false
                    currentStep := some (if success then "complete" else "failed")
                    currentSymbol := none }
  match message with
  | some m => { t with completionMessage := some m }
  | none => t

/-!  ## ResolutionOrchestrator (`holdings_resolver.resolve_snapshot_holdings`)

The session is modelled by a working copy of the holdings table plus the
last committed copy; `session.commit()` may fail (an unexpected database
exception) according to the `commitOk` schedule, in which case the
exception propagates out of `resolve_snapshot_holdings` and the
`db_session` context manager rolls the session back.  The per-symbol
external work is wrapped in try/except blocks in the source, so the
uncaught exception points are exactly the commits.  `calls` counts external
provider invocations (one per constituent-resolution attempt, plus the
yfinance calls counted by `getStockInfo`).
-/

/-- Session-plus-globals state threaded through one orchestration run. -/
structure OrchState where
  working : List Holding
  committed : List Holding
  cache : Cache
  tracker : Tracker
  calls : ℕ
  commitIdx : ℕ
deriving Repr, DecidableEq

/-- Result of one `resolve_snapshot_holdings` run: the holdings table after
the session closes, the cache, the tracker, the external-call count, and
`some resolved_count` on normal return (`none` when an exception
propagated). -/
structure RunResult where
  db : List Holding
  cache : Cache
  tracker : Tracker
  calls : ℕ
  returned : Option ℕ
deriving Repr, DecidableEq

/-- Write an updated holding back into the table by primary key. -/
def updateById (db : List Holding) (h : Holding) : List Holding :=
  db.map (fun x => if x.id == h.id then h else x)

/-- `session.commit()` under the failure schedule. -/
def tryCommit (commitOk : ℕ → Bool) (st : OrchState) : Except OrchState OrchState :=
  if commitOk st.commitIdx then
    Except.ok { st with committed := st.working, commitIdx := st.commitIdx + 1 }
  else Except.error st

/-- `HoldingsResolver.resolve_multiple_holdings` over the unresolved fund
holdings: an id-keyed map of the non-`None` results. -/
def resolveMultipleHoldings (search : String → Option FundInfo)
    (table : String → Option (List ProviderRow)) (hs : List Holding) :
    List (ℕ × FundResult) :=
  hs.foldl (fun acc h =>
    match resolveHolding search table h.symbol h.assetType h.totalValue with
    | some r => acc ++ [(h.id, r)]
    | none => acc) []

/-- Lookup in the id-keyed result map. -/
def lookupNat (m : List (ℕ × FundResult)) (k : ℕ) : Option FundResult :=
  (m.find? (fun p => p.1 == k)).map (fun p => p.2)

/-- The per-holding update of the STEP 1 loop for a present resolver
result: store the constituent list, adopt the verified asset type, mark
the holding as parsed; the two counters are the deltas to
`resolved_count` and `actual_underlying_count`. -/
def step1NewHolding (r : FundResult) (h : Holding) : Holding × ℕ × ℕ :=
  let upd : Holding × ℕ × ℕ :=
    match r.holdings with
    | some l =>
        if l.isEmpty then (h, 0, 0)
        else ({ h with underlying := some l }, 1, l.length)
    | none => (h, 0, 0)
  let h1 := upd.1
  let h2 :=
    if r.verifiedAssetType != "" && r.verifiedAssetType != h1.assetType then
      { h1 with assetType := r.verifiedAssetType }
    else h1
  ({ h2 with underlyingParsed := true }, upd.2.1, upd.2.2)

/-- The STEP 1 update loop: store constituent lists, adopt the verified
asset type, and mark every processed fund holding as parsed (missing
results are terminal too, with a tracker error). -/
def step1Apply (results : List (ℕ × FundResult)) :
    List Holding → OrchState → ℕ → ℕ → OrchState × ℕ × ℕ
  | [], st, resolved, actual => (st, resolved, actual)
  | h :: rest, st, resolved, actual =>
      match lookupNat results h.id with
      | some r =>
          let out := step1NewHolding r h
          step1Apply results rest
            { st with working := updateById st.working out.1 }
            (resolved + out.2.1) (actual + out.2.2)
      | none =>
          let h' := { h with underlyingParsed := true }
          let tr := logError st.tracker h.symbol "Failed to resolve underlying holdings"
          step1Apply results rest
            { st with working := updateById st.working h', tracker := tr } resolved actual

/-- `fetch_stock_info_for_holding`.  `get_stock_info` never returns a falsy
value in the source (every path yields a dict), so the success branch is
the only live one; all exceptions below it are caught internally. -/
def fetchStockInfoForHolding (provider : String → Option RawInfo)
    (st : OrchState) (h : Holding) : Holding × OrchState × Bool :=
  if h.infoFetched then (h, st, true)
  else
    let tr := updateProgress st.tracker "parent_info" (some h.symbol)
      none none none none none false
    let out := getStockInfo provider st.cache h.symbol false
    let h' := { h with sector := some out.info.sector
                       industry := some out.info.industry
                       country := some out.info.country
                       infoFetched := true }
    (h', { st with cache := out.cache, tracker := tr, calls := st.calls + out.calls }, true)

/-- The skip test in the STEP 3 constituent loop:
`existing_sector and existing_sector not in [None, 'Unknown', '', 'NOT SET']`. -/
def hasKnownSector (c : Constituent) : Bool :=
  pyTruthyO c.sector && c.sector != some "Unknown" && c.sector != some ""
    && c.sector != some "NOT SET"

/-- The constituent loop of
`fetch_sector_info_for_underlying_holdings_with_tracking`: constituents
with a known sector are skipped (counted as enriched, tracked as cached);
the rest are enriched through `get_stock_info`, which always returns a
truthy record in the source. -/
def enrichConstituentsLoop (provider : String → Option RawInfo)
    (parentSymbol : String) (processedSoFar : ℕ) :
    List Constituent → ℕ → OrchState → ℕ → List Constituent × OrchState × ℕ
  | [], _, st, enr => ([], st, enr)
  | c :: rest, idx, st, enr =>
      let globalIdx := processedSoFar + idx
      if hasKnownSector c then
        let tr := updateProgress st.tracker "underlying_info"
          (some (parentSymbol ++ " → " ++ c.symbol ++ " (cached)"))
          none none none (some globalIdx) none true
        let out := enrichConstituentsLoop provider parentSymbol processedSoFar rest
          (idx + 1) { st with tracker := tr } (enr + 1)
        (c :: out.1, out.2)
      else
        let isCached := memA st.cache c.symbol
        let tr := updateProgress st.tracker "underlying_info"
          (some (parentSymbol ++ " → " ++ c.symbol))
          none none none (some globalIdx) none isCached
        let res := getStockInfo provider st.cache c.symbol false
        let c' := { c with sector := some res.info.sector
                           industry := some res.info.industry
                           country := some res.info.country
                           geography := some res.info.geography }
        let st1 : OrchState :=
          { st with cache := res.cache, tracker := tr, calls := st.calls + res.calls }
        let out := enrichConstituentsLoop provider parentSymbol processedSoFar rest
          (idx + 1) st1 (enr + 1)
        (c' :: out.1, out.2)

/-- `fetch_sector_info_for_underlying_holdings_with_tracking`: enrich one
fund holding's constituents and write the list back. -/
def fetchSectorInfoUnderlyingWithTracking (provider : String → Option RawInfo)
    (st : OrchState) (h : Holding) (processedSoFar _totalUnderlying : ℕ) :
    Holding × OrchState × ℕ :=
  if h.underlyingList.isEmpty then (h, st, 0)
  else
    let out := enrichConstituentsLoop provider h.symbol processedSoFar
      h.underlyingList 1 st 0
    ({ h with underlying := some out.1 }, out.2)

/-- The STEP 2 loop over holdings needing parent info, committing every
tenth holding and once after the loop. -/
def step2Loop (provider : String → Option RawInfo) (commitOk : ℕ → Bool) :
    List Holding → ℕ → OrchState → ℕ → Except OrchState (OrchState × ℕ)
  | [], _, st, count =>
      match tryCommit commitOk st with
      | Except.ok st' => Except.ok (st', count)
      | Except.error e => Except.error e
  | h :: rest, idx, st, count =>
      let tr := updateProgress st.tracker "parent_info" (some h.symbol)
        none none (some idx) none none false
      let out := fetchStockInfoForHolding provider { st with tracker := tr } h
      let st2 := { out.2.1 with working := updateById out.2.1.working out.1 }
      let count' := if out.2.2 then count + 1 else count
      if idx % 10 == 0 then
        match tryCommit commitOk st2 with
        | Except.ok st3 => step2Loop provider commitOk rest (idx + 1) st3 count'
        | Except.error e => Except.error e
      else step2Loop provider commitOk rest (idx + 1) st2 count'

/-- The STEP 3 loop over fund holdings with constituents, committing after
each fund. -/
def step3Loop (provider : String → Option RawInfo) (commitOk : ℕ → Bool) :
    List Holding → ℕ → ℕ → OrchState → ℕ → Except OrchState (OrchState × ℕ)
  | [], _, _, st, enr => Except.ok (st, enr)
  | h :: rest, processed, total, st, enr =>
      let out := fetchSectorInfoUnderlyingWithTracking provider st h processed total
      let st2 := { out.2.1 with working := updateById out.2.1.working out.1 }
      let processed' := processed + out.1.underlyingList.length
      match tryCommit commitOk st2 with
      | Except.ok st3 => step3Loop provider commitOk rest processed' total st3 (enr + out.2.2)
      | Except.error e => Except.error e

/-- A propagated exception: the session rolls back to the last committed
state, the tracker keeps whatever the run last wrote (no completion, no
tracker error entry for the exception). -/
def mkRaisedResult (e : OrchState) : RunResult :=
  ⟨e.committed, e.cache, e.tracker, e.calls, none⟩

/-- `resolve_snapshot_holdings`: the three-phase orchestration run. -/
def resolveSnapshotHoldings (search : String → Option FundInfo)
    (table : String → Option (List ProviderRow))
    (provider : String → Option RawInfo) (commitOk : ℕ → Bool)
    (db : List Holding) (cache : Cache) (tracker0 : Tracker)
    (snapshotId : ℕ) : RunResult :=
  let all0 := db.filter (fun h => h.portfolioSnapshotId == snapshotId)
  if all0.isEmpty then ⟨db, cache, tracker0, 0, some 0⟩
  else
    let etfMf := all0.filter (fun h =>
      (h.assetType == "etf" || h.assetType == "mutual_fund") && !h.underlyingParsed)
    let estimatedUnderlying := etfMf.length * 100
    let tr0 := startResolution snapshotId (all0.length + estimatedUnderlying)
      all0.length estimatedUnderlying
    let st0 : OrchState := ⟨db, db, cache, tr0, 0, 0⟩
    let step1Res : Except OrchState (OrchState × ℕ) :=
      if !etfMf.isEmpty then
        let st := { st0 with tracker := (updateProgress st0.tracker "etf_resolution"
          none none none none none none false) }
        let results := resolveMultipleHoldings search table etfMf
        let st := { st with calls := st.calls + etfMf.length }
        let out := step1Apply results etfMf st 0 0
        match tryCommit commitOk out.1 with
        | Except.ok st' =>
            let st'' := { st' with tracker := (updateProgress st'.tracker "etf_resolution"
              none none none none none (some out.2.2) false) }
            Except.ok (st'', out.2.1)
        | Except.error e => Except.error e
      else Except.ok (st0, 0)
    match step1Res with
    | Except.error e => mkRaisedResult e
    | Except.ok (st1, resolvedCount) =>
        let needing := st1.working.filter (fun h =>
          h.portfolioSnapshotId == snapshotId && !h.infoFetched)
        let step2Res :=
          if !needing.isEmpty then
            let st := { st1 with tracker := (updateProgress st1.tracker "parent_info"
              none none none (some 0) none none false) }
            step2Loop provider commitOk needing 1 st 0
          else Except.ok (st1, 0)
        match step2Res with
        | Except.error e => mkRaisedResult e
        | Except.ok (st2, infoCount) =>
            let withUnderlying := st2.working.filter (fun h =>
              h.portfolioSnapshotId == snapshotId &&
              (h.assetType == "etf" || h.assetType == "mutual_fund") &&
              !h.underlyingList.isEmpty)
            let step3Res :=
              if !withUnderlying.isEmpty then
                let total := (withUnderlying.map (fun h => h.underlyingList.length)).sum
                let st := { st2 with tracker := (updateProgress st2.tracker "underlying_info"
                  none none none none (some 0) (some total) false) }
                step3Loop provider commitOk withUnderlying 0 total st 0
              else Except.ok (st2, 0)
            match step3Res with
            | Except.error e => mkRaisedResult e
            | Except.ok (st3, enrichedCount) =>
                let msg := "Resolved " ++ toString resolvedCount ++ " ETF/MF, "
                  ++ toString infoCount ++ " parent info, "
                  ++ toString enrichedCount ++ " underlying"
                let tr := completeResolution st3.tracker true (some msg)
                ⟨st3.working, st3.cache, tr, st3.calls, some resolvedCount⟩

/-- `upload.resolve_holdings_background`: the background thread wrapper
catches every exception and only writes it to the application log; the
tracker is left exactly as the raising run left it. -/
def resolveHoldingsBackground (search : String → Option FundInfo)
    (table : String → Option (List ProviderRow))
    (provider : String → Option RawInfo) (commitOk : ℕ → Bool)
    (db : List Holding) (cache : Cache) (tracker0 : Tracker)
    (snapshotId : ℕ) : RunResult :=
  resolveSnapshotHoldings search table provider commitOk db cache tracker0 snapshotId

/-!  ## Database tables and snapshot selection (`models.py`, `db_utils.py`) -/

/-- A row of the `broker_accounts` table. -/
structure Account where
  id : ℕ
  brokerName : String
  accountLast4 : Option String := none
  isActive : Bool := true
deriving Repr, DecidableEq

/-- A row of the `portfolio_snapshots` table; the snapshot date is an
integer timestamp. -/
structure Snapshot where
  id : ℕ
  brokerAccountId : ℕ
  snapshotDate : ℤ
deriving Repr, DecidableEq

/-- The relational store. -/
structure Db where
  accounts : List Account
  snapshots : List Snapshot
  holdings : List Holding
deriving Repr, DecidableEq

/-- Account lookup by primary key (the `broker_account` relationship). -/
def findAccount (db : Db) (aid : ℕ) : Option Account :=
  db.accounts.find? (fun a => a.id == aid)

/-- Does the snapshot belong to an active account?  (The join plus
`is_active == True` filter in `get_latest_snapshots`.) -/
def isActiveAccountOf (db : Db) (s : Snapshot) : Bool :=
  match findAccount db s.brokerAccountId with
  | some a => a.isActive
  | none => false

/-- All snapshot dates of one account (the grouped subquery). -/
def accountSnapshotDates (db : Db) (aid : ℕ) : List ℤ :=
  (db.snapshots.filter (fun t => t.brokerAccountId == aid)).map (fun t => t.snapshotDate)

/-- Does the snapshot carry its account's maximal date?  (The join on
`snapshot_date == max_date`; ties keep every tied snapshot, as in SQL.) -/
def isLatestOfAccount (db : Db) (s : Snapshot) : Bool :=
  (accountSnapshotDates db s.brokerAccountId).all (fun d => d ≤ s.snapshotDate)

/-- `db_utils.get_latest_snapshots`: the max-date snapshots of the active
accounts, in table order. -/
def latestSnapshots (db : Db) : List Snapshot :=
  db.snapshots.filter (fun s => isLatestOfAccount db s && isActiveAccountOf db s)

/-- The `snapshot.holdings` relationship. -/
def holdingsOf (db : Db) (sid : ℕ) : List Holding :=
  db.holdings.filter (fun h => h.portfolioSnapshotId == sid)

/-- `PortfolioSnapshot.query.filter_by(broker_account_id=aid)
.order_by(desc(snapshot_date)).first()`: the first row in table order
carrying the maximal date. -/
def latestSnapshotOfAccount (db : Db) (aid : ℕ) : Option Snapshot :=
  let l := db.snapshots.filter (fun t => t.brokerAccountId == aid)
  l.find? (fun s => l.all (fun t => t.snapshotDate ≤ s.snapshotDate))

/-!  ## HoldingsAggregator (`holdings_aggregator.py`) -/

/-- Python `str.title()` (restricted to alphabetic casing). -/
def pyTitleAux : Bool → List Char → List Char
  | _, [] => []
  | prevAlpha, c :: rest =>
      let c' := if c.isAlpha then (if prevAlpha then c.toLower else c.toUpper) else c
      c' :: pyTitleAux c.isAlpha rest

/-- Python `str.title()`. -/
def pyTitle (s : String) : String :=
  String.mk (pyTitleAux false s.data)

/-- One broker contribution recorded on an aggregated symbol. -/
structure BrokerContribution where
  broker : String
  brokerDisplay : String
  quantity : ℚ
  price : ℚ
  value : ℚ
  accountLast4 : Option String
deriving Repr, DecidableEq

/-- One source record in the underlying-holdings map. -/
structure UnderlyingSource where
  fund : String
  weight : ℚ
  value : ℚ
deriving Repr, DecidableEq

/-- One entry of the underlying-holdings map. -/
structure UnderlyingEntry where
  symbol : String := ""
  name : String := ""
  totalValue : ℚ := 0
  sources : List UnderlyingSource := []
deriving Repr, DecidableEq

/-- One entry of the overlaps map. -/
structure OverlapRecord where
  directValue : ℚ
  underlyingValue : ℚ
  underlyingSources : List UnderlyingSource
deriving Repr, DecidableEq

/-- One aggregated per-symbol entry (`_aggregate_by_symbol` dict). -/
structure AggEntry where
  symbol : String := ""
  name : String := ""
  totalQuantity : ℚ := 0
  averagePrice : ℚ := 0
  totalValue : ℚ := 0
  assetType : String := ""
  brokers : List BrokerContribution := []
  isEtfOrMf : Bool := false
  isCash : Bool := false
  underlyingCount : ℕ := 0
  sector : Option String := none
  country : Option String := none
  allocationPct : ℚ := 0
  price : ℚ := 0
  quantity : ℚ := 0
  hasOverlap : Bool := false
  overlapSources : Option OverlapRecord := none
deriving Repr, DecidableEq

/-- One entry of the direct-holdings map. -/
structure DirectEntry where
  value : ℚ
  allocation : ℚ
  quantity : ℚ
deriving Repr, DecidableEq

/-- The body of the `_aggregate_by_symbol` loop for one holding: create the
entry on first occurrence (symbol, name, type, sector/country,
constituent count), then accumulate quantity/value and append the broker
contribution. -/
def aggAddHolding (db : Db) (snapshot : Snapshot)
    (m : List (String × AggEntry)) (h : Holding) : List (String × AggEntry) :=
  let brokerName := ((findAccount db snapshot.brokerAccountId).map
    (fun a => a.brokerName)).getD ""
  let acct4 := ((findAccount db snapshot.brokerAccountId).map
    (fun a => a.accountLast4)).getD none
  let data0 := (lookupA m h.symbol).getD {}
  let data1 :=
    if data0.symbol == "" then
      { data0 with symbol := h.symbol
                   name := h.name
                   assetType := h.assetType
                   isEtfOrMf := h.assetType == "etf" || h.assetType == "mutual_fund"
                   isCash := h.assetType == "cash"
                   sector := h.sector
                   country := h.country
                   underlyingCount :=
                     if !h.underlyingList.isEmpty then h.underlyingList.length
                     else data0.underlyingCount }
    else data0
  let contribution : BrokerContribution :=
    ⟨brokerName, pyTitle (pyReplace brokerName "_" " "), h.quantity, h.price,
     h.totalValue, acct4⟩
  let data2 := { data1 with totalQuantity := data1.totalQuantity + h.quantity
                            totalValue := data1.totalValue + h.totalValue
                            brokers := data1.brokers ++ [contribution] }
  insertA m h.symbol data2

/-- The stable ascending sort key comparison used by `_aggregate_by_symbol`
(`key=lambda x: (x['is_cash'], -x['total_value'])`), as a strict order. -/
def aggKeyLt (a b : AggEntry) : Bool :=
  (!a.isCash && b.isCash) || (a.isCash == b.isCash && a.totalValue > b.totalValue)

/-- Stable insertion for the aggregation sort. -/
def insertAggStable : List AggEntry → AggEntry → List AggEntry
  | [], c => [c]
  | d :: ds, c => if aggKeyLt c d then c :: d :: ds else d :: insertAggStable ds c

/-- `list.sort` with the aggregation key: investments first by descending
value, then cash. -/
def sortAggEntries (l : List AggEntry) : List AggEntry :=
  l.foldl insertAggStable []

/-- The post-processing of one aggregated entry in `_aggregate_by_symbol`:
average price, allocation percentage, and the flat price/quantity keys. -/
def aggFinalize (totalPortfolioValue : ℚ) (d0 : AggEntry) : AggEntry :=
  let d1 :=
    if d0.totalQuantity > 0 then
      { d0 with averagePrice := d0.totalValue / d0.totalQuantity }
    else d0
  let d2 :=
    if totalPortfolioValue > 0 then
      { d1 with allocationPct := d1.totalValue / totalPortfolioValue * 100 }
    else { d1 with allocationPct := 0 }
  { d2 with price := d2.averagePrice, quantity := d2.totalQuantity }

/-- `HoldingsAggregator._aggregate_by_symbol`. -/
def aggregateBySymbol (db : Db) (snapshots : List Snapshot) : List AggEntry :=
  let m : List (String × AggEntry) :=
    snapshots.foldl (fun m s => (holdingsOf db s.id).foldl (aggAddHolding db s) m) []
  let totalPortfolioValue : ℚ := (m.map (fun p => p.2.totalValue)).sum
  let result := m.map (fun p => aggFinalize totalPortfolioValue p.2)
  sortAggEntries result

/-- `HoldingsAggregator._get_direct_holdings`: symbol → value map over the
non-cash aggregated entries. -/
def getDirectHoldings (aggregated : List AggEntry) : List (String × DirectEntry) :=
  aggregated.foldl (fun m h =>
    if h.assetType == "cash" then m
    else insertA m h.symbol ⟨h.totalValue, h.allocationPct, h.totalQuantity⟩) []

/-- The snapshot ids `_get_underlying_holdings` collects for one aggregated
fund entry: for each recorded broker contribution, the FIRST account with
that broker name (no active filter), then that account's most recent
snapshot. -/
def underlyingSnapshotIds (db : Db) (entry : AggEntry) : List ℕ :=
  entry.brokers.foldl (fun ids bi =>
    match db.accounts.find? (fun a => a.brokerName == bi.broker) with
    | some acct =>
        match latestSnapshotOfAccount db acct.id with
        | some sn => ids ++ [sn.id]
        | none => ids
    | none => ids) []

/-- Accumulate one constituent of one fund into the underlying map. -/
def addConstituent (parentSymbol : String)
    (m : List (String × UnderlyingEntry)) (c : Constituent) :
    List (String × UnderlyingEntry) :=
  let data0 := (lookupA m c.symbol).getD {}
  let data1 :=
    if data0.symbol == "" then { data0 with symbol := c.symbol, name := c.name }
    else data0
  let data2 := { data1 with totalValue := data1.totalValue + c.value
                            sources := data1.sources ++ [⟨parentSymbol, c.weight, c.value⟩] }
  insertA m c.symbol data2

/-- `HoldingsAggregator._get_underlying_holdings`. -/
def getUnderlyingHoldings (db : Db) (aggregated : List AggEntry) :
    List (String × UnderlyingEntry) :=
  aggregated.foldl (fun m entry =>
    if !entry.isEtfOrMf then m
    else
      let snapshotIds := underlyingSnapshotIds db entry
      let holdingsObjs := db.holdings.filter (fun h =>
        snapshotIds.contains h.portfolioSnapshotId && h.symbol == entry.symbol)
      holdingsObjs.foldl (fun m hobj =>
        hobj.underlyingList.foldl (addConstituent entry.symbol) m) m) []

/-- `HoldingsAggregator._detect_overlaps`: a key of the direct map that is
also a key of the underlying map. -/
def detectOverlaps (direct : List (String × DirectEntry))
    (underlying : List (String × UnderlyingEntry)) :
    List (String × OverlapRecord) :=
  direct.foldl (fun ov p =>
    match lookupA underlying p.1 with
    | some u => insertA ov p.1 ⟨p.2.value, u.totalValue, u.sources⟩
    | none => ov) []

/-- The dashboard read-model returned by `get_aggregated_holdings`. -/
structure AggregatedResult where
  totalValue : ℚ
  totalInvestments : ℚ
  totalCash : ℚ
  cashPercentage : ℚ
  investmentPercentage : ℚ
  holdings : List AggEntry
  cashHoldings : List AggEntry
  investmentHoldings : List AggEntry
  directHoldings : List (String × DirectEntry)
  underlyingHoldings : List (String × UnderlyingEntry)
  overlaps : List (String × OverlapRecord)
deriving Repr, DecidableEq

/-- The overlap flags written onto one aggregated entry after overlap
detection. -/
def applyOverlapFlag (overlaps : List (String × OverlapRecord)) (h : AggEntry) : AggEntry :=
  match lookupA overlaps h.symbol with
  | some o => { h with hasOverlap := true, overlapSources := some o }
  | none => { h with hasOverlap := false, overlapSources := none }

/-- The (snapshot, holding) pairs `_aggregate_by_symbol` iterates: for each
selected snapshot in order, its holdings in table order. -/
def snapHoldingPairs (db : Db) : List Snapshot → List (Snapshot × Holding)
  | [] => []
  | s :: rest => (holdingsOf db s.id).map (fun h => (s, h)) ++ snapHoldingPairs db rest

/-- `HoldingsAggregator.get_aggregated_holdings`.  The cash/investment
partitions share the aggregated dict objects in the source, so the overlap
flags written after overlap detection are visible in them too; the model
applies the overlap pass before partitioning. -/
def getAggregatedHoldings (db : Db) : AggregatedResult :=
  let sel := latestSnapshots db
  if sel.isEmpty then ⟨0, 0, 0, 0, 0, [], [], [], [], [], []⟩
  else
    let aggregated := aggregateBySymbol db sel
    let totalValue := (aggregated.map (fun h => h.totalValue)).sum
    let direct := getDirectHoldings aggregated
    let underlying := getUnderlyingHoldings db aggregated
    let overlaps := detectOverlaps direct underlying
    let aggregated2 := aggregated.map (applyOverlapFlag overlaps)
    let cashHoldings := aggregated2.filter (fun h => h.assetType == "cash")
    let investmentHoldings := aggregated2.filter (fun h => h.assetType != "cash")
    let totalCash := (cashHoldings.map (fun h => h.totalValue)).sum
    let totalInvestments := (investmentHoldings.map (fun h => h.totalValue)).sum
    let cashPct := if totalValue > 0 then totalCash / totalValue * 100 else 0
    let invPct := if totalValue > 0 then totalInvestments / totalValue * 100 else 0
    ⟨totalValue, totalInvestments, totalCash, cashPct, invPct,
     aggregated2, cashHoldings, investmentHoldings, direct, underlying, overlaps⟩

/-!  ## CSV parsers: Merrill cash rows (`merrill_csv_parser.py`) and the
Fidelity cash path (`fidelity_csv_parser.py`)

A CSV row is an ordered list of (column name, optional cell) pairs; a
`none` cell models a pandas `NaN`.  `str()` of a `NaN` cell is the string
"nan", as in the source pipeline.
-/

/-- `Decimal(s)` on a plain decimal literal (optional sign, digits, one
optional fraction part); `none` models `InvalidOperation`.  Exponent forms
are not modelled. -/
def parseDecimal (s : String) : Option ℚ :=
  let cs := s.data
  let signAndRest : Bool × List Char :=
    match cs with
    | '-' :: r => (true, r)
    | '+' :: r => (false, r)
    | _ => (false, cs)
  let neg := signAndRest.1
  let cs1 := signAndRest.2
  let intDigits := cs1.takeWhile Char.isDigit
  let rest := cs1.dropWhile Char.isDigit
  match rest with
  | [] =>
      if intDigits.isEmpty then none
      else some ((if neg then -1 else 1) * (digitsVal intDigits : ℚ))
  | '.' :: frac =>
      if frac.all Char.isDigit && !(intDigits.isEmpty && frac.isEmpty) then
        some ((if neg then -1 else 1) *
          ((digitsVal intDigits : ℚ) + (digitsVal frac : ℚ) / (10 : ℚ) ^ frac.length))
      else none
  | _ => none

/-- `str()` of a raw cell: a missing value prints as "nan". -/
def cellStr (v : Option String) : String :=
  match v with
  | none => "nan"
  | some s => s

/-- Cell access by column name. -/
def getCell (row : List (String × Option String)) (col : String) : Option String :=
  ((row.find? (fun p => p.1 == col)).map (fun p => p.2)).join

/-- `CSVParserBase.normalize_symbol`. -/
def normalizeSymbol (v : Option String) : String :=
  match v with
  | none => ""
  | some s => if s == "" then "" else strUpper (strTrim s)

/-- The string core of `CSVParserBase.clean_currency` (the argument has
already been stringified). -/
def cleanCurrencyStr (s : String) : ℚ :=
  if s == "" then 0
  else
    let isNeg := strStartsWith (strTrim s) "(" && strEndsWith (strTrim s) ")"
    let cleaned := strTrim (pyReplace (pyReplace (pyReplace (pyReplace s "$" "") "," "") "(" "") ")" "")
    match parseDecimal cleaned with
    | some q => if isNeg then -q else q
    | none => 0

/-- The string core of `CSVParserBase.clean_quantity`. -/
def cleanQuantityStr (s : String) : ℚ :=
  if s == "" then 0
  else
    match parseDecimal (strTrim (pyReplace s "," "")) with
    | some q => q
    | none => 0

/-- First maximal run of characters matching `[\d,.]` (the quantity/price
regex in `_parse_row`). -/
def isNumRunChar (c : Char) : Bool :=
  c.isDigit || c == ',' || c == '.'

/-- `re.search(r'[\d,.]+', s)`. -/
def firstNumRun (s : String) : Option String :=
  let rest := s.data.dropWhile (fun c => !isNumRunChar c)
  let run := rest.takeWhile isNumRunChar
  if run.isEmpty then none else some (String.mk run)

/-- The dollar-amount row scan used for Merrill money-account rows and for
cash rows with a zero value column: the first cell whose stringified value
starts with a dollar sign, is not `$0.00`, and parses to a positive
amount.  `keep` restricts the scanned columns (the alternate-value scan
excludes the value column). -/
def scanDollarValue (row : List (String × Option String)) (keep : String → Bool) :
    Option ℚ :=
  row.findSome? (fun p =>
    if !keep p.1 then none
    else
      match p.2 with
      | none => none
      | some v =>
          let vs := strTrim v
          if strStartsWith vs "$" && vs != "$0.00" then
            match parseDecimal (strTrim (pyReplace (pyReplace vs "$" "") "," "")) with
            | some amt => if amt > 0 then some amt else none
            | none => none
          else none)

/-- `MerrillCSVParser._is_cash_holding` keyword list. -/
def merrillCashKeywords : List String :=
  ["CASH", "MONEY MARKET", "SWEEP", "SETTLEMENT", "CORE",
   "FDIC", "BANK DEPOSIT", "CASH BALANCE", "AVAILABLE CASH",
   "UNINVESTED", "PENDING", "MONEY ACCOUNTS", "BANK OF AMERICA",
   "RASP", "SAVINGS", "CHECKING", "DEPOSIT", "MONEY ACCOUNT"]

/-- `MerrillCSVParser._is_cash_holding`. -/
def merrillIsCashHolding (symbol description : String) : Bool :=
  let symbolUpper := if symbol != "" then strUpper symbol else ""
  let descUpper := if description != "" then strUpper description else ""
  let combined := symbolUpper ++ " " ++ descUpper
  merrillCashKeywords.any (fun k => containsStr combined k)

/-- The column mapping produced by `_map_columns`: symbol, quantity and
value are required; the rest may be absent. -/
structure MerrillColumns where
  symbol : String
  quantity : String
  value : String
  description : Option String := none
  price : Option String := none
  accountType : Option String := none
deriving Repr, DecidableEq

/-- A parsed holding dict as produced by `MerrillCSVParser._parse_row`. -/
structure ParsedHolding where
  symbol : String
  name : String
  quantity : ℚ
  price : ℚ
  totalValue : ℚ
  assetType : String
  accountType : Option String
deriving Repr, DecidableEq

/-- The extracted description of a Merrill row (`_parse_row`). -/
def merrillRowDescription (cols : MerrillColumns) (row : List (String × Option String)) :
    String :=
  match cols.description with
  | some dc =>
      match getCell row dc with
      | some d => strTrim d
      | none => ""
  | none => ""

/-- The cleaned value-column amount of a Merrill row (`_parse_row`): strip
dollar signs and spaces, repair thousands separators when both a comma and
a decimal point are present, and parse the result as a currency amount. -/
def merrillRowValue0 (cols : MerrillColumns) (row : List (String × Option String)) : ℚ :=
  let valueStr := cellStr (getCell row cols.value)
  let valueCleaned := strTrim (pyReplace (pyReplace valueStr "$" "") " " "")
  let valueCleaned :=
    if strContainsChar valueCleaned ',' && strContainsChar valueCleaned '.' then
      match strSplitOn valueCleaned "." with
      | [intPart, fracPart] => (pyReplace intPart "," "") ++ "." ++ fracPart
      | _ => valueCleaned
    else valueCleaned
  cleanCurrencyStr valueCleaned

/-- The cash value extracted from a Merrill cash row: the cleaned value
column, falling back to the first other dollar cell when it is zero. -/
def merrillRowCashValue (cols : MerrillColumns) (row : List (String × Option String)) : ℚ :=
  if merrillRowValue0 cols row == 0 then
    (scanDollarValue row (fun c => c != cols.value)).getD (merrillRowValue0 cols row)
  else merrillRowValue0 cols row

/-- The account type extracted from a Merrill row. -/
def merrillRowAccountType (cols : MerrillColumns) (row : List (String × Option String)) :
    Option String :=
  match cols.accountType with
  | some ac =>
      match getCell row ac with
      | some av =>
          let a := strLower (strTrim av)
          if containsStr a "ira" then some "ira"
          else if containsStr a "roth" then some "roth"
          else if containsStr a "401k" || containsStr a "401(k)" then some "401k"
          else if containsStr a "taxable" || containsStr a "individual" then some "taxable"
          else none
      | none => none
  | none => none

/-- `MerrillCSVParser._parse_row`.  `assetTypeOf` models the shared
`AssetTypeResolver` (cache plus external quote-type lookup plus
heuristics), which is only consulted for non-cash rows. -/
def merrillParseRow (assetTypeOf : String → String → String)
    (cols : MerrillColumns) (row : List (String × Option String)) :
    Option ParsedHolding :=
  let symbol0 := normalizeSymbol (getCell row cols.symbol)
  let symbolUpper := if symbol0 != "" then strUpper symbol0 else ""
  if ["TOTAL", "BALANCES", "CASH BALANCE", "PENDING ACTIVITY", "PENDING"].contains symbolUpper
  then none
  else
    let description := merrillRowDescription cols row
    let isCash := merrillIsCashHolding symbol0 description
    if symbol0 != "" && containsStr (strUpper symbol0) "MONEY ACCOUNT" then
      match scanDollarValue row (fun _ => true) with
      | some v =>
          some ⟨"CASH", (if description != "" then description else "Cash / Money Market"),
                1, v, v, "cash", none⟩
      | none => none
    else
      let symOpt : Option String :=
        if symbol0 == "" || symbol0 == "N/A" then
          (if isCash then some "CASH" else none)
        else some symbol0
      match symOpt with
      | none => none
      | some symbol =>
          let quantityStr := cellStr (getCell row cols.quantity)
          let quantity0 :=
            match firstNumRun quantityStr with
            | some runStr => cleanQuantityStr runStr
            | none => cleanQuantityStr quantityStr
          if quantity0 == 0 && !isCash then none
          else
            let quantity1 := if quantity0 == 0 && isCash then 1 else quantity0
            let totalValue0 := merrillRowValue0 cols row
            let totalValue1 :=
              if totalValue0 == 0 && isCash then
                (scanDollarValue row (fun c => c != cols.value)).getD totalValue0
              else totalValue0
            if totalValue1 == 0 then none
            else
              let price0 := if quantity1 != 0 then totalValue1 / quantity1 else 0
              let priceQty : ℚ × ℚ :=
                if isCash then (totalValue1, (1 : ℚ)) else (price0, quantity1)
              let priceValue : ℚ × ℚ :=
                if !isCash then
                  match cols.price with
                  | some pc =>
                      match getCell row pc with
                      | some pv =>
                          match firstNumRun pv with
                          | some runStr =>
                              let pfc := cleanCurrencyStr runStr
                              if pfc > 0 then (pfc, pfc * priceQty.2)
                              else (priceQty.1, totalValue1)
                          | none => (priceQty.1, totalValue1)
                      | none => (priceQty.1, totalValue1)
                  | none => (priceQty.1, totalValue1)
                else (priceQty.1, totalValue1)
              let assetType := if isCash then "cash" else assetTypeOf symbol description
              let accountType := merrillRowAccountType cols row
              some ⟨symbol, (if description != "" then description else symbol),
                    priceQty.2, priceValue.1, priceValue.2, assetType, accountType⟩

/-- Strip trailing asterisks (Python `.rstrip('*')`). -/
def rstripStars (s : String) : String :=
  String.mk ((s.data.reverse.dropWhile (fun c => c == '*')).reverse)

/-- `FidelityCSVParser._parse_currency`. -/
def fidelityParseCurrency (valueStr : String) : ℚ :=
  if valueStr == "" then 0
  else
    let cleaned := strTrim (pyReplace (pyReplace valueStr "$" "") "," "")
    let cleaned :=
      if strStartsWith cleaned "(" && strEndsWith cleaned ")" then
        "-" ++ ((cleaned.drop 1).dropRight 1)
      else cleaned
    if cleaned == "" then 0
    else
      match parseDecimal cleaned with
      | some q => q
      | none => 0

/-- Money-market fund symbols treated as cash by the Fidelity parser. -/
def fidelityMoneyMarketSymbols : List String :=
  ["SPAXX", "FDRXX", "FZFXX", "SPRXX", "FDLXX", "FTEXX", "FRGXX",
   "FCASH", "CORE", "FLGXX"]

/-- `FidelityCSVParser._is_cash_holding`. -/
def fidelityIsCashHolding (description symbol holdingType : String) : Bool :=
  let descLower := if description != "" then strLower description else ""
  let symbolClean := if symbol != "" then rstripStars (strUpper symbol) else ""
  let typeLower := if holdingType != "" then strTrim (strLower holdingType) else ""
  if typeLower == "cash" then true
  else if fidelityMoneyMarketSymbols.contains symbolClean then true
  else
    ["held in money market", "held in fcash", "core position"].any
      (fun p => containsStr descLower p)

/-- One record of `FidelityCSVParser.cash_holdings` as appended by
`_parse_row` (all keys present). -/
structure FidelityCashRecord where
  accountNumber : String
  accountName : String
  description : String
  symbol : String
  value : ℚ
deriving Repr, DecidableEq

/-- The cash path of `FidelityCSVParser._parse_row` (fields already passed
through `safe_get`): the skip checks, the value parse, and the cash test;
`some r` means a record is appended to `cash_holdings`.  Non-cash rows
(the regular-holding path) are out of scope of this function. -/
def fidelityRowCashRecord (accountNumber accountName symbol description
    valueStr holdingType : String) : Option FidelityCashRecord :=
  if accountNumber == "" && description == "" && symbol == "" then none
  else if accountNumber.length > 20 || containsStr accountNumber "Fidelity"
    || containsStr (strLower accountNumber) "provided" then none
  else if (description != "" && containsStr (strLower description) "pending activity")
    || (symbol != "" && containsStr (strLower symbol) "pending") then none
  else
    let value := fidelityParseCurrency valueStr
    if value == 0 && symbol == "" then none
    else if fidelityIsCashHolding description symbol holdingType then
      if value != 0 then some ⟨accountNumber, accountName, description, symbol, value⟩
      else none
    else none

/-- A holding dict as produced by `FidelityCSVParser._get_cash_as_holdings`. -/
structure FidelityCashHolding where
  symbol : String
  name : String
  quantity : ℚ
  price : ℚ
  totalValue : ℚ
  value : ℚ
  assetType : String
  accountNumber : String
  accountName : String
  broker : String
deriving Repr, DecidableEq

/-- `FidelityCSVParser._get_cash_as_holdings`: every key is present on the
records built by `_parse_row`, so `cash.get('symbol', 'CASH')` returns the
stored symbol (the default only covers an absent key) and
`cash.get('description', 'Cash')` the stored description. -/
def fidelityGetCashAsHoldings (cash : List FidelityCashRecord) :
    List FidelityCashHolding :=
  cash.map (fun c =>
    ⟨rstripStars c.symbol, c.description, 1, c.value, c.value, c.value,
     "cash", c.accountNumber, c.accountName, "fidelity"⟩)

/-!  ## Concrete database states used by the claim theorems -/

/-- An already fully resolved ETF holding whose stored constituent still
lacks sector data (phases 1 and 2 completed, phase 3 interrupted — the
resolution flags do not cover phase 3). -/
def c1Fund : Holding :=
  { id := 1, portfolioSnapshotId := 5, symbol := "VTI", name := "Vanguard Total",
    quantity := 10, price := 10, totalValue := 100, assetType := "etf",
    underlying := some [{ symbol := "AAPL", name := "Apple", weight := 1/20, value := 5 }],
    underlyingParsed := true, infoFetched := true }

/-- A fully enriched constituent record. -/
def c1Constituent : Constituent :=
  { symbol := "AAPL", name := "Apple", weight := 1/20, value := 5,
    sector := some "Technology", industry := some "Consumer Electronics",
    country := some "United States", geography := some "US" }

/-- The same holding with its constituent fully enriched. -/
def c1FundKnown : Holding :=
  { c1Fund with underlying := some [c1Constituent] }

/-- An unresolved ETF holding, fresh from CSV ingestion. -/
def c3Fund : Holding :=
  { id := 1, portfolioSnapshotId := 5, symbol := "VTI", name := "Vanguard Total",
    quantity := 10, price := 10, totalValue := 100, assetType := "etf" }

/-- A fund search result for the C3 run (the constituent resolution itself
succeeds; the failure is the database commit afterwards). -/
def c3Search : String → Option FundInfo :=
  fun _ => some ⟨"SEC1", "VTI", "Vanguard Total", "ARCX", "etf"⟩

/-- A one-row constituent table for the C3 run. -/
def c3Table : String → Option (List ProviderRow) :=
  fun _ => some [{ ticker := some "AAPL", securityName := some "Apple", weighting := some 5 }]

/-- The C3 run: a healthy snapshot, healthy providers, and a first commit
that raises a database error. -/
def c3Run : RunResult :=
  resolveSnapshotHoldings c3Search c3Table (fun _ => none) (fun _ => false)
    [c3Fund] [] {} 5

/-- Accounts and snapshots for the aggregation counterexamples: two
accounts share the broker name, the first one inactive with an older
snapshot. -/
def c6AcctInactive : Account := { id := 1, brokerName := "merrill", isActive := false }

def c6AcctActive : Account := { id := 2, brokerName := "merrill", isActive := true }

def c6SnapOld : Snapshot := { id := 10, brokerAccountId := 1, snapshotDate := 5 }

def c6SnapNew : Snapshot := { id := 20, brokerAccountId := 2, snapshotDate := 6 }

/-- The inactive account's resolved fund holding. -/
def c6OldVTI : Holding :=
  { id := 100, portfolioSnapshotId := 10, symbol := "VTI", name := "Vanguard Total",
    quantity := 1, price := 999, totalValue := 999, assetType := "etf",
    underlying := some [{ symbol := "AAPL", name := "Apple", weight := 1/2, value := 500 }],
    underlyingParsed := true, infoFetched := true }

/-- The active account's resolved fund holding. -/
def c6NewVTI : Holding :=
  { id := 200, portfolioSnapshotId := 20, symbol := "VTI", name := "Vanguard Total",
    quantity := 1, price := 100, totalValue := 100, assetType := "etf",
    underlying := some [{ symbol := "MSFT", name := "Microsoft", weight := 1/2, value := 50 }],
    underlyingParsed := true, infoFetched := true }

/-- The C6 database. -/
def c6Db : Db :=
  { accounts := [c6AcctInactive, c6AcctActive],
    snapshots := [c6SnapOld, c6SnapNew],
    holdings := [c6OldVTI, c6NewVTI] }

/-- The C6 database with the inactive account's snapshot (and its holdings)
deleted. -/
def c6DbDeleted : Db :=
  { accounts := [c6AcctInactive, c6AcctActive],
    snapshots := [c6SnapNew],
    holdings := [c6NewVTI] }

/-- A direct stock holding with zero total value. -/
def c2AAPL : Holding :=
  { id := 300, portfolioSnapshotId := 30, symbol := "AAPL", name := "Apple",
    quantity := 1, price := 0, totalValue := 0, assetType := "stock",
    infoFetched := true }

/-- A resolved ETF holding whose constituent list names AAPL. -/
def c2VTI : Holding :=
  { id := 301, portfolioSnapshotId := 30, symbol := "VTI", name := "Vanguard Total",
    quantity := 1, price := 100, totalValue := 100, assetType := "etf",
    underlying := some [{ symbol := "AAPL", name := "Apple", weight := 1/20, value := 5 }],
    underlyingParsed := true, infoFetched := true }

/-- The C2 database. -/
def c2Db : Db :=
  { accounts := [{ id := 3, brokerName := "fidelity" }],
    snapshots := [{ id := 30, brokerAccountId := 3, snapshotDate := 1 }],
    holdings := [c2AAPL, c2VTI] }

/-- The column mapping of the C9 example rows. -/
def c9Cols : MerrillColumns :=
  { symbol := "Symbol", quantity := "Quantity", value := "Value",
    description := some "Description", price := some "Price" }

/-- A Merrill money-market row with an empty symbol cell. -/
def c9Row : List (String × Option String) :=
  [("Symbol", none), ("Description", some "Held in Money Market"),
   ("Quantity", none), ("Price", none), ("Value", some "$1,234.56")]

/-- The Fidelity cash record produced from an empty-symbol money-market
row. -/
def c9FidelityRecord : FidelityCashRecord :=
  ⟨"X123", "Brokerage", "Held in Money Market", "", 500⟩

/-- The C1 re-run on the flag-resolved but sector-incomplete holding. -/
def c1Run : RunResult :=
  resolveSnapshotHoldings c3Search c3Table (fun _ => none) (fun _ => true) [c1Fund] [] {} 5

/-- The constituent as the C1 re-run rewrites it: enriched with the
Unknown placeholders of a failed provider lookup. -/
def c1UnknownConstituent : Constituent :=
  { symbol := "AAPL", name := "Apple", weight := 1/20, value := 5,
    sector := some "Unknown", industry := some "Unknown",
    country := some "Unknown", geography := some "Unknown" }

/-- Fund search result for the C5 examples. -/
def c5Search : String → Option FundInfo :=
  fun _ => some ⟨"SEC1", "LEVG", "Leveraged Fund", "ARCX", "etf"⟩

/-- Constituent table with a 150% weight row and a 0.00001% weight row. -/
def c5TableA : String → Option (List ProviderRow) :=
  fun _ => some
    [{ ticker := some "AAPL", securityName := some "Apple", weighting := some 150 },
     { ticker := some "TINY", securityName := some "Tiny Co", weighting := some (1/100000) }]

/-- Constituent table with a weight whose 6-decimal rounding loses
precision relative to the stored value. -/
def c5TableB : String → Option (List ProviderRow) :=
  fun _ => some
    [{ ticker := some "MSFT", securityName := some "Microsoft",
       weighting := some (123456/1000000) }]

/-!  ## Generic lemmas about the container primitives -/

theorem roundHalfEven_nonneg {q : ℚ} (h : 0 ≤ q) : 0 ≤ roundHalfEven q := by
  unfold roundHalfEven
  have hf : (0 : ℤ) ≤ ⌊q⌋ := Int.le_floor.mpr (by exact_mod_cast h)
  split
  · exact hf
  · split
    · omega
    · split <;> omega

theorem roundHalfEven_le_of_le {q : ℚ} {B : ℤ} (h : q ≤ (B : ℚ)) :
    roundHalfEven q ≤ B := by
  unfold roundHalfEven
  have hfl : ⌊q⌋ ≤ B := Int.floor_le_floor h |>.trans_eq (Int.floor_intCast B)
  have hfq : (⌊q⌋ : ℚ) ≤ q := Int.floor_le q
  split
  · exact hfl
  · rename_i h1
    push_neg at h1
    have hstrict : ⌊q⌋ < B := by
      by_contra hc
      push_neg at hc
      have heq : ⌊q⌋ = B := le_antisymm hfl hc
      have : ((⌊q⌋ : ℤ) : ℚ) = (B : ℚ) := by exact_mod_cast heq
      linarith
    split
    · omega
    · split <;> omega

/-- `0 ≤ q ≤ 1` is preserved by `pyRound`. -/
theorem pyRound_mem_unit {n : ℕ} {q : ℚ} (h0 : 0 ≤ q) (h1 : q ≤ 1) :
    0 ≤ pyRound n q ∧ pyRound n q ≤ 1 := by
  unfold pyRound
  have hpow : (0 : ℚ) < (10 : ℚ) ^ n := by positivity
  constructor
  · apply div_nonneg _ (le_of_lt hpow)
    exact_mod_cast roundHalfEven_nonneg (by positivity)
  · rw [div_le_one hpow]
    have : roundHalfEven (q * (10 : ℚ) ^ n) ≤ (10 : ℤ) ^ n := by
      apply roundHalfEven_le_of_le
      push_cast
      nlinarith
    calc ((roundHalfEven (q * (10 : ℚ) ^ n) : ℤ) : ℚ)
        ≤ (((10 : ℤ) ^ n : ℤ) : ℚ) := by exact_mod_cast this
      _ = (10 : ℚ) ^ n := by push_cast; ring

/-!  ## FundConstituentResolver (`holdings_resolver.HoldingsResolver`)

`_search_us_fund` and the Morningstar holdings table are external lookups;
they are parameters of the embedding (`search`, `table`).  `resolve_holding`
processes the returned holdings table exactly as the source does.
-/

theorem mem_insertDescW {c x : Constituent} {l : List Constituent} :
    x ∈ insertDescW l c ↔ x = c ∨ x ∈ l := by
  induction l with
  | nil => simp [insertDescW]
  | cons d ds ih =>
      simp only [insertDescW]
      split
      · simp only [List.mem_cons]
      · simp only [List.mem_cons, ih]
        tauto

theorem mem_sortByWeightDesc {x : Constituent} {l : List Constituent} :
    x ∈ sortByWeightDesc l ↔ x ∈ l := by
  suffices h : ∀ (l : List Constituent) (acc : List Constituent),
      x ∈ l.foldl insertDescW acc ↔ x ∈ acc ∨ x ∈ l by
    have := h l []
    simpa [sortByWeightDesc] using this
  intro l
  induction l with
  | nil => simp
  | cons d ds ih =>
      intro acc
      simp only [List.foldl_cons, ih, mem_insertDescW]
      simp [or_comm, or_assoc]
      tauto

theorem tryVariants_calls_le {provider : String → Option RawInfo} {cache : Cache}
    {o n : String} : ∀ (l : List String) (c : ℕ),
    c ≤ (tryVariants provider cache o n l c).calls := by
  intro l
  induction l with
  | nil =>
      intro c
      simp only [tryVariants, fetchFallback]
      split <;> simp
  | cons v rest ih =>
      intro c
      simp only [tryVariants]
      match provider v with
      | none => exact le_trans (Nat.le_succ c) (ih (c + 1))
      | some raw =>
          simp only []
          split
          · exact le_trans (Nat.le_succ c) (ih (c + 1))
          · split
            · simp
            · exact le_trans (Nat.le_succ c) (ih (c + 1))

theorem tryVariants_calls_pos {provider : String → Option RawInfo} {cache : Cache}
    {o n v : String} {rest : List String} {c : ℕ} :
    c + 1 ≤ (tryVariants provider cache o n (v :: rest) c).calls := by
  simp only [tryVariants]
  match provider v with
  | none => exact tryVariants_calls_le rest (c + 1)
  | some raw =>
      simp only []
      split
      · exact tryVariants_calls_le rest (c + 1)
      · split
        · simp
        · exact tryVariants_calls_le rest (c + 1)


theorem lookupA_insertA {α : Type} (m : List (String × α)) (k k' : String) (v : α) :
    lookupA (insertA m k v) k' = if k' = k then some v else lookupA m k' := by
  induction m with
  | nil =>
      by_cases h : k' = k
      · simp [lookupA, insertA, List.find?, h]
      · have hkk : (k == k') = false := by
          simp only [beq_eq_false_iff_ne, ne_eq]
          exact fun hc => h hc.symm
        simp [lookupA, insertA, List.find?, hkk, h]
  | cons p rest ih =>
      obtain ⟨pk, pv⟩ := p
      by_cases h1 : pk = k
      · by_cases h2 : k' = pk
        · have hb : (pk == k) = true := by simpa using h1
          have hb2 : (pk == k') = true := by simp [h2]
          have h3 : k' = k := h2.trans h1
          simp [lookupA, insertA, List.find?, hb, hb2, h3]
        · have hb : (pk == k) = true := by simpa using h1
          have hb2 : (pk == k') = false := by
            simp only [beq_eq_false_iff_ne, ne_eq]
            exact fun hc => h2 hc.symm
          have h3 : ¬(k' = k) := fun hc => h2 (hc.trans h1.symm)
          simp [lookupA, insertA, List.find?, hb, hb2, h3]
      · have hb : (pk == k) = false := by simpa using h1
        by_cases h2 : k' = pk
        · have hb2 : (pk == k') = true := by simp [h2]
          have h3 : ¬(k' = k) := by
            intro hc
            exact h1 (by rw [← h2]; exact hc)
          simp [lookupA, insertA, List.find?, hb, hb2, h3]
        · have hb2 : (pk == k') = false := by
            simp only [beq_eq_false_iff_ne, ne_eq]
            exact fun hc => h2 hc.symm
          simp only [insertA, hb, Bool.false_eq_true, if_false]
          simp only [lookupA, List.find?, hb2] at ih ⊢
          exact ih

theorem memA_insertA {α : Type} (m : List (String × α)) (k k' : String) (v : α) :
    memA (insertA m k v) k' = (k' == k || memA m k') := by
  by_cases h : k' = k <;> simp [memA, lookupA_insertA, h]

theorem memA_iff_exists {α : Type} (m : List (String × α)) (k : String) :
    memA m k = true ↔ ∃ p ∈ m, p.1 = k := by
  unfold memA lookupA
  cases hfind : List.find? (fun p => p.1 == k) m with
  | none =>
      simp only [Option.map_none', Option.isSome_none, Bool.false_eq_true, false_iff]
      rintro ⟨p, hp, hk⟩
      have := List.find?_eq_none.mp hfind p hp
      simp [hk] at this
  | some q =>
      simp only [Option.map_some', Option.isSome_some, true_iff]
      refine ⟨q, List.mem_of_find?_eq_some hfind, ?_⟩
      have := List.find?_some hfind
      simpa using this

theorem mem_insertA_strong {α : Type} {m : List (String × α)} {k : String} {v : α}
    {p : String × α} (h : p ∈ insertA m k v) : p = (k, v) ∨ p ∈ m := by
  induction m with
  | nil => simpa [insertA] using h
  | cons q rest ih =>
      obtain ⟨qk, qv⟩ := q
      simp only [insertA] at h
      by_cases hqk : (qk == k) = true
      · rw [if_pos hqk] at h
        rcases List.mem_cons.mp h with h1 | h1
        · left
          have : qk = k := by simpa using hqk
          rw [h1, this]
        · right; exact List.mem_cons_of_mem _ h1
      · rw [if_neg hqk] at h
        rcases List.mem_cons.mp h with h1 | h1
        · right; exact h1 ▸ List.mem_cons_self _ _
        · rcases ih h1 with h2 | h2
          · exact Or.inl h2
          · exact Or.inr (List.mem_cons_of_mem _ h2)

theorem mem_updateById {db : List Holding} {h' x : Holding}
    (hx : x ∈ updateById db h') : x = h' ∨ (x ∈ db ∧ x.id ≠ h'.id) := by
  unfold updateById at hx
  rcases List.mem_map.mp hx with ⟨y, hy, hval⟩
  by_cases hid : y.id = h'.id
  · left
    simpa [hid] using hval.symm
  · right
    have hfalse : (y.id == h'.id) = false := by simpa using hid
    rw [hfalse] at hval
    simp only [Bool.false_eq_true, if_false] at hval
    exact ⟨hval ▸ hy, hval ▸ hid⟩

theorem updateById_eq_self {db : List Holding} {h : Holding}
    (huniq : ∀ x ∈ db, x.id = h.id → x = h) : updateById db h = db := by
  unfold updateById
  conv_rhs => rw [← List.map_id db]
  apply List.map_congr_left
  intro x hx
  by_cases hid : x.id = h.id
  · have hx2 : (x.id == h.id) = true := by simpa using hid
    simp only [hx2, if_true, id_eq]
    exact (huniq x hx hid).symm
  · have hx2 : (x.id == h.id) = false := by simpa using hid
    simp [hx2]

theorem sum_map_filter_partition {α : Type} (f : α → ℚ) (p : α → Bool) (l : List α) :
    ((l.filter p).map f).sum + ((l.filter (fun x => !p x)).map f).sum = (l.map f).sum := by
  induction l with
  | nil => simp
  | cons a t ih =>
      by_cases h : p a = true
      · simp only [List.filter_cons, h, Bool.not_true, Bool.false_eq_true, if_false,
          if_true, List.map_cons, List.sum_cons]
        linarith [ih]
      · have h' : p a = false := by simpa using h
        simp only [List.filter_cons, h', Bool.not_false, Bool.false_eq_true, if_false,
          if_true, List.map_cons, List.sum_cons]
        linarith [ih]

theorem cash_inv_split_core (A : List AggEntry) (O : List (String × OverlapRecord)) :
    (((A.map (applyOverlapFlag O)).filter
          (fun h => h.assetType == "cash")).map (fun h => h.totalValue)).sum +
    (((A.map (applyOverlapFlag O)).filter
          (fun h => h.assetType != "cash")).map (fun h => h.totalValue)).sum =
    (A.map (fun h => h.totalValue)).sum := by
  have hpart := sum_map_filter_partition (fun h => h.totalValue)
    (fun h => h.assetType == "cash") (A.map (applyOverlapFlag O))
  have hmap : ((A.map (applyOverlapFlag O)).map
        (fun h => h.totalValue)).sum = (A.map (fun h => h.totalValue)).sum := by
    rw [List.map_map]
    congr 1
    apply List.map_congr_left
    intro h _
    simp only [Function.comp_apply]
    unfold applyOverlapFlag
    cases lookupA O h.symbol <;> rfl
  rw [hmap] at hpart
  rw [← hpart]
  rfl

/-- C8: in every result of `get_aggregated_holdings` (over any database
state, including one with no snapshots), the cash total plus the
investment total equals the portfolio total, where the cash total sums the
aggregated holdings with asset type `cash` and the investment total sums
all the others. -/
theorem C8_cash_plus_investments_eq_total (db : Db) :
    (getAggregatedHoldings db).totalCash + (getAggregatedHoldings db).totalInvestments =
      (getAggregatedHoldings db).totalValue := by
  simp only [getAggregatedHoldings]
  split
  · norm_num
  · exact cash_inv_split_core (aggregateBySymbol db (latestSnapshots db))
      (detectOverlaps (getDirectHoldings (aggregateBySymbol db (latestSnapshots db)))
        (getUnderlyingHoldings db (aggregateBySymbol db (latestSnapshots db))))

theorem memA_detectOverlaps (direct : List (String × DirectEntry))
    (underlying : List (String × UnderlyingEntry)) (k : String) :
    memA (detectOverlaps direct underlying) k = true ↔
      (memA direct k = true ∧ memA underlying k = true) := by
  have aux : ∀ (d : List (String × DirectEntry)) (acc : List (String × OverlapRecord)),
      memA (d.foldl (fun ov p =>
        match lookupA underlying p.1 with
        | some u => insertA ov p.1 ⟨p.2.value, u.totalValue, u.sources⟩
        | none => ov) acc) k = true ↔
      (memA acc k = true ∨ ((∃ p ∈ d, p.1 = k) ∧ memA underlying k = true)) := by
    intro d
    induction d with
    | nil => intro acc; simp
    | cons p rest ih =>
        intro acc
        simp only [List.foldl_cons]
        cases hu : lookupA underlying p.1 with
        | none =>
            simp only [hu]
            rw [ih acc]
            constructor
            · rintro (h | ⟨⟨q, hq, hqk⟩, hm⟩)
              · exact Or.inl h
              · exact Or.inr ⟨⟨q, List.mem_cons_of_mem _ hq, hqk⟩, hm⟩
            · rintro (h | ⟨⟨q, hq, hqk⟩, hm⟩)
              · exact Or.inl h
              · rcases List.mem_cons.mp hq with h1 | h1
                · exfalso
                  rw [h1] at hqk
                  rw [hqk] at hu
                  simp [memA, hu] at hm
                · exact Or.inr ⟨⟨q, h1, hqk⟩, hm⟩
        | some u =>
            simp only [hu]
            rw [ih]
            rw [memA_insertA]
            by_cases hk : k = p.1
            · have hmem : memA underlying k = true := by
                rw [hk]
                simp [memA, hu]
              have hb : (k == p.1) = true := by simpa using hk
              simp only [hb, Bool.true_or, true_iff]
              constructor
              · intro _
                exact Or.inr ⟨⟨p, List.mem_cons_self _ _, hk.symm⟩, hmem⟩
              · intro _
                exact Or.inl trivial
            · have hb : (k == p.1) = false := by simpa using hk
              simp only [hb, Bool.false_or]
              constructor
              · rintro (h | ⟨⟨q, hq, hqk⟩, hm⟩)
                · exact Or.inl h
                · exact Or.inr ⟨⟨q, List.mem_cons_of_mem _ hq, hqk⟩, hm⟩
              · rintro (h | ⟨⟨q, hq, hqk⟩, hm⟩)
                · exact Or.inl h
                · rcases List.mem_cons.mp hq with h1 | h1
                  · exfalso
                    rw [h1] at hqk
                    exact hk hqk.symm
                  · exact Or.inr ⟨⟨q, h1, hqk⟩, hm⟩
  unfold detectOverlaps
  rw [aux direct []]
  rw [memA_iff_exists direct k]
  simp only [memA, lookupA, List.find?, Option.map_none', Option.isSome_none,
    Bool.false_eq_true, false_or]

/-- C2 (amended): a symbol is a key of the overlaps map exactly when it is
a key of the direct-holdings map and a key of the underlying-holdings map;
key membership — not positivity of the mapped values — is what the code
tests, so zero- or negative-valued entries participate too. -/
theorem C2_overlap_key_symmetry (db : Db) (sym : String) :
    memA (getAggregatedHoldings db).overlaps sym = true ↔
      (memA (getAggregatedHoldings db).directHoldings sym = true ∧
       memA (getAggregatedHoldings db).underlyingHoldings sym = true) := by
  simp only [getAggregatedHoldings]
  split
  · simp [memA, lookupA]
  · exact memA_detectOverlaps _ _ sym

/-- C2 (counterexample): in the database `c2Db` a zero-valued direct AAPL
position overlaps a fund constituent, so AAPL is a key of `overlaps`
although its direct value is not positive — the claimed equivalence with
positive values fails. -/
theorem C2_counterexample :
    ¬(∀ sym, memA (getAggregatedHoldings c2Db).overlaps sym = true ↔
        ((∃ d, lookupA (getAggregatedHoldings c2Db).directHoldings sym = some d ∧ 0 < d.value) ∧
         (∃ u, lookupA (getAggregatedHoldings c2Db).underlyingHoldings sym = some u ∧
            0 < u.totalValue))) := by
  intro hall
  have hmem : memA (getAggregatedHoldings c2Db).overlaps "AAPL" = true :=
    of_decide_eq_true (by with_unfolding_all rfl)
  obtain ⟨⟨d, hd, hpos⟩, -⟩ := (hall "AAPL").mp hmem
  have hlook : lookupA (getAggregatedHoldings c2Db).directHoldings "AAPL" =
      some ⟨0, 0, 1⟩ := by with_unfolding_all rfl
  rw [hlook] at hd
  cases hd
  exact absurd hpos (by norm_num)

theorem getStockInfo_unfold (provider : String → Option RawInfo) (cache : Cache)
    (symbol : String) :
    getStockInfo provider cache symbol false =
      (match cacheProbe cache [if pyTruthy symbol then strUpper (strTrim symbol) else symbol,
          normalizeTicker symbol] with
       | some e => ⟨e, cache, 0⟩
       | none => getStockInfoMiss provider cache
           (if pyTruthy symbol then strUpper (strTrim symbol) else symbol)
           (normalizeTicker symbol)) := rfl

theorem getStockInfoMiss_calls_pos (provider : String → Option RawInfo) (cache : Cache)
    (o n : String) : 1 ≤ (getStockInfoMiss provider cache o n).calls := by
  unfold getStockInfoMiss
  cases hvs : getTickerVariants n with
  | nil =>
      have h0 : (([] : List String).contains o) = false := rfl
      rw [h0]
      simp only [Bool.false_eq_true, if_false]
      exact tryVariants_calls_pos
  | cons v rest =>
      by_cases hc : ((v :: rest).contains o) = true
      · rw [hc]
        simp only [if_true]
        exact tryVariants_calls_pos
      · have hc2 : ((v :: rest).contains o) = false := by simpa using hc
        rw [hc2]
        simp only [Bool.false_eq_true, if_false]
        exact tryVariants_calls_pos

/-- C4: a `get_stock_info` call without force-refresh returns a cached
entry with a known (non-Unknown, non-N/A) sector or country unchanged and
makes no external-provider call, while a symbol whose cached entries have
neither a known sector nor a known country goes back to the provider (at
least one external call), so it stays eligible for re-fetch. -/
theorem C4_cache_complete_no_refetch (provider : String → Option RawInfo)
    (cache : Cache) (symbol : String) :
    (∀ e, lookupA cache (if pyTruthy symbol then strUpper (strTrim symbol) else symbol) = some e →
      isCacheComplete e = true →
      getStockInfo provider cache symbol false = ⟨e, cache, 0⟩) ∧
    ((∀ k, (k = (if pyTruthy symbol then strUpper (strTrim symbol) else symbol) ∨
            k = normalizeTicker symbol) →
        ∀ e, lookupA cache k = some e → isCacheComplete e = false) →
      1 ≤ (getStockInfo provider cache symbol false).calls) := by
  constructor
  · intro e hlook hcomp
    rw [getStockInfo_unfold]
    have hprobe : cacheProbe cache
        [if pyTruthy symbol then strUpper (strTrim symbol) else symbol,
         normalizeTicker symbol] = some e := by
      unfold cacheProbe
      rw [List.findSome?_cons]
      simp [hlook, hcomp]
    rw [hprobe]
  · intro hinc
    rw [getStockInfo_unfold]
    have hprobe : cacheProbe cache
        [if pyTruthy symbol then strUpper (strTrim symbol) else symbol,
         normalizeTicker symbol] = none := by
      unfold cacheProbe
      rw [List.findSome?_cons]
      cases h1 : lookupA cache (if pyTruthy symbol then strUpper (strTrim symbol) else symbol) with
      | some e1 =>
          have hf1 := hinc _ (Or.inl rfl) e1 h1
          simp only [hf1, Bool.false_eq_true, if_false]
          rw [List.findSome?_cons]
          cases h2 : lookupA cache (normalizeTicker symbol) with
          | some e2 =>
              have hf2 := hinc _ (Or.inr rfl) e2 h2
              simp [hf2]
          | none => simp
      | none =>
          simp only []
          rw [List.findSome?_cons]
          cases h2 : lookupA cache (normalizeTicker symbol) with
          | some e2 =>
              have hf2 := hinc _ (Or.inr rfl) e2 h2
              simp [hf2]
          | none => simp
    rw [hprobe]
    exact getStockInfoMiss_calls_pos provider cache _ _

/-- C4 witness: a cached AAPL entry with a known sector satisfies the first
part at a concrete cache and provider; an Unknown-placeholder MSFT entry
exercises the second. -/
theorem C4_witness :
    getStockInfo (fun _ => none)
      [("AAPL", ⟨"Technology", "Unknown", "Unknown", "Unknown"⟩)] "AAPL" false =
      ⟨⟨"Technology", "Unknown", "Unknown", "Unknown"⟩,
       [("AAPL", ⟨"Technology", "Unknown", "Unknown", "Unknown"⟩)], 0⟩ ∧
    1 ≤ (getStockInfo (fun _ => none)
      [("MSFT", ⟨"Unknown", "Unknown", "Unknown", "Unknown"⟩)] "MSFT" false).calls := by
  constructor
  · exact (C4_cache_complete_no_refetch (fun _ => none)
      [("AAPL", ⟨"Technology", "Unknown", "Unknown", "Unknown"⟩)] "AAPL").1
      ⟨"Technology", "Unknown", "Unknown", "Unknown"⟩
      (by with_unfolding_all rfl) (by with_unfolding_all rfl)
  · apply (C4_cache_complete_no_refetch (fun _ => none)
      [("MSFT", ⟨"Unknown", "Unknown", "Unknown", "Unknown"⟩)] "MSFT").2
    intro k hk e he
    rcases hk with hk | hk
    · rw [hk] at he
      have heval : lookupA [("MSFT", (⟨"Unknown", "Unknown", "Unknown", "Unknown"⟩ : StockInfo))]
          (if pyTruthy "MSFT" then strUpper (strTrim "MSFT") else "MSFT") =
          some ⟨"Unknown", "Unknown", "Unknown", "Unknown"⟩ := by with_unfolding_all rfl
      rw [heval] at he
      rw [(Option.some.inj he).symm]
      with_unfolding_all rfl
    · rw [hk] at he
      have heval : lookupA [("MSFT", (⟨"Unknown", "Unknown", "Unknown", "Unknown"⟩ : StockInfo))]
          (normalizeTicker "MSFT") =
          some ⟨"Unknown", "Unknown", "Unknown", "Unknown"⟩ := by with_unfolding_all rfl
      rw [heval] at he
      rw [(Option.some.inj he).symm]
      with_unfolding_all rfl

theorem processRow_spec {tv : ℚ} {row : ProviderRow} {c : Constituent}
    (h : processRow tv row = some c) :
    row.weighting.getD 0 ≠ 0 ∧
    c.weight = pyRound 6 (row.weighting.getD 0 / 100) ∧
    c.value = pyRound 2 (tv * (row.weighting.getD 0 / 100)) := by
  simp only [processRow] at h
  split at h
  · exact absurd h (by simp)
  · split at h
    · exact absurd h (by simp)
    · rename_i hw
      have hc := Option.some.inj h
      rw [← hc]
      exact ⟨hw, rfl, rfl⟩

/-- C5 (amended): every constituent record produced by `resolve_holding`
comes from a provider row with a nonzero raw percentage weight `w`; the
stored weight is `round(w/100, 6)` while the stored value is
`round(total_value × (w/100), 2)` — computed from the unrounded fraction —
and the stored weight lies in `[0, 1]` whenever the provider percentage
lies in `[0, 100]` (the provider itself can report weights outside that
range, and a positive percentage below 0.00005 rounds to a stored weight
of zero). -/
theorem C5_weight_value_consistency (search : String → Option FundInfo)
    (table : String → Option (List ProviderRow)) (symbol assetType : String)
    (totalValue : ℚ) (r : FundResult) (cs : List Constituent) (c : Constituent)
    (hr : resolveHolding search table symbol assetType totalValue = some r)
    (hcs : r.holdings = some cs) (hc : c ∈ cs) :
    ∃ fi, search symbol = some fi ∧
    ∃ rows, table fi.securityID = some rows ∧
    ∃ row ∈ rows, processRow totalValue row = some c ∧
      row.weighting.getD 0 ≠ 0 ∧
      c.weight = pyRound 6 (row.weighting.getD 0 / 100) ∧
      c.value = pyRound 2 (totalValue * (row.weighting.getD 0 / 100)) ∧
      (0 ≤ row.weighting.getD 0 → row.weighting.getD 0 ≤ 100 →
        0 ≤ c.weight ∧ c.weight ≤ 1) := by
  unfold resolveHolding at hr
  by_cases hat : (assetType != "etf" && assetType != "mutual_fund") = true
  · rw [if_pos hat] at hr
    exact absurd hr (by simp)
  · rw [if_neg hat] at hr
    cases hs : search symbol with
    | none =>
        rw [hs] at hr
        exact absurd hr (by simp)
    | some fi =>
        rw [hs] at hr
        simp only [] at hr
        cases ht : table fi.securityID with
        | none =>
            rw [ht] at hr
            have := Option.some.inj hr
            rw [← this] at hcs
            exact absurd hcs (by simp)
        | some rows =>
            rw [ht] at hr
            simp only [] at hr
            by_cases hre : rows.isEmpty = true
            · rw [if_pos hre] at hr
              have := Option.some.inj hr
              rw [← this] at hcs
              exact absurd hcs (by simp)
            · rw [if_neg hre] at hr
              by_cases hue : (rows.filterMap (processRow totalValue)).isEmpty = true
              · rw [if_pos hue] at hr
                have := Option.some.inj hr
                rw [← this] at hcs
                exact absurd hcs (by simp)
              · rw [if_neg hue] at hr
                have hrr := Option.some.inj hr
                rw [← hrr] at hcs
                have hcs2 : sortByWeightDesc (rows.filterMap (processRow totalValue)) = cs := by
                  simpa using hcs
                rw [← hcs2] at hc
                have hc2 : c ∈ rows.filterMap (processRow totalValue) :=
                  mem_sortByWeightDesc.mp hc
                obtain ⟨row, hrow, hproc⟩ := List.mem_filterMap.mp hc2
                obtain ⟨hw0, hweq, hveq⟩ := processRow_spec hproc
                refine ⟨fi, rfl, rows, ht, row, hrow, hproc, hw0, hweq, hveq, ?_⟩
                intro hge hle
                rw [hweq]
                exact pyRound_mem_unit (by positivity) (by linarith)

/-- C5 (counterexample): with a 150% provider weight the stored weight is
3/2 > 1; with a 0.00001% weight a zero-weight record appears in the
result; and a 0.123456% weight on a 1,000,000 fund stores value 1234.56
while `round(stored_weight × total, 2)` is 1235 — refuting the claim as
stated at explicit inputs. -/
theorem C5_counterexample :
    (resolveHolding c5Search c5TableA "LEVG" "etf" 1000 =
      some ⟨some [⟨"AAPL", "Apple", 3/2, 1500, none, none, none, none, none⟩,
                  ⟨"TINY", "Tiny Co", 0, 0, none, none, none, none, none⟩], "etf"⟩ ∧
      ¬((3 : ℚ)/2 ≤ 1) ∧ (0 : ℚ) = 0) ∧
    (resolveHolding c5Search c5TableB "VTI" "etf" 1000000 =
      some ⟨some [⟨"MSFT", "Microsoft", 247/200000, 30864/25, none, none, none, none, none⟩],
            "etf"⟩ ∧
      (30864 : ℚ)/25 ≠ pyRound 2 ((247 : ℚ)/200000 * 1000000)) := by
  refine ⟨⟨?_, by norm_num, rfl⟩, ⟨?_, ?_⟩⟩
  · with_unfolding_all rfl
  · with_unfolding_all rfl
  · have : pyRound 2 ((247 : ℚ)/200000 * 1000000) = 1235 := by with_unfolding_all rfl
    rw [this]
    norm_num

/-- C5 witness: the amended theorem applied to the concrete precision-loss
instance. -/
theorem C5_witness :
    ∃ fi, c5Search "VTI" = some fi ∧
    ∃ rows, c5TableB fi.securityID = some rows ∧
    ∃ row ∈ rows,
      processRow 1000000 row =
        some ⟨"MSFT", "Microsoft", 247/200000, 30864/25, none, none, none, none, none⟩ ∧
      row.weighting.getD 0 ≠ 0 ∧
      (⟨"MSFT", "Microsoft", 247/200000, 30864/25, none, none, none, none,
        none⟩ : Constituent).weight = pyRound 6 (row.weighting.getD 0 / 100) ∧
      (⟨"MSFT", "Microsoft", 247/200000, 30864/25, none, none, none, none,
        none⟩ : Constituent).value = pyRound 2 (1000000 * (row.weighting.getD 0 / 100)) ∧
      (0 ≤ row.weighting.getD 0 → row.weighting.getD 0 ≤ 100 →
        0 ≤ (⟨"MSFT", "Microsoft", 247/200000, 30864/25, none, none, none, none,
          none⟩ : Constituent).weight ∧
        (⟨"MSFT", "Microsoft", 247/200000, 30864/25, none, none, none, none,
          none⟩ : Constituent).weight ≤ 1) :=
  C5_weight_value_consistency c5Search c5TableB "VTI" "etf" 1000000
    ⟨some [⟨"MSFT", "Microsoft", 247/200000, 30864/25, none, none, none, none, none⟩], "etf"⟩
    [⟨"MSFT", "Microsoft", 247/200000, 30864/25, none, none, none, none, none⟩]
    ⟨"MSFT", "Microsoft", 247/200000, 30864/25, none, none, none, none, none⟩
    (by with_unfolding_all rfl) rfl (by simp)

/-- C10 (amended): reading `underlying_holdings_list` is total: a NULL,
empty or malformed stored text yields the empty list, and a stored text
that is valid JSON yields the parsed value as-is — which is the
constituent list whenever the stored payload is a serialized list, but is
returned unwrapped (and is then not a list) for other valid JSON. -/
theorem C10_underlying_list_total (s : String) :
    underlyingHoldingsList none = PyJson.arr [] ∧
    (s = "" → underlyingHoldingsList (some s) = PyJson.arr []) ∧
    (jsonParse s = none → underlyingHoldingsList (some s) = PyJson.arr []) ∧
    (∀ v, jsonParse s = some v → s ≠ "" → underlyingHoldingsList (some s) = v) := by
  refine ⟨rfl, ?_, ?_, ?_⟩
  · intro hs
    rw [hs]
    rfl
  · intro hp
    unfold underlyingHoldingsList
    by_cases hs : pyTruthy s = true
    · simp only [hs, Bool.not_true, Bool.false_eq_true, if_false, hp]
    · have hs2 : pyTruthy s = false := by simpa using hs
      simp [hs2]
  · intro v hp hs
    unfold underlyingHoldingsList
    have hs2 : pyTruthy s = true := by
      unfold pyTruthy
      simpa using hs
    simp only [hs2, Bool.not_true, Bool.false_eq_true, if_false, hp]

/-- C10 (counterexample): the stored text "5" is valid JSON, so the getter
returns the parsed number as-is — the consumer does not receive a list. -/
theorem C10_counterexample :
    jsonParse "5" = some (PyJson.num 5) ∧
    ¬∃ l, underlyingHoldingsList (some "5") = PyJson.arr l := by
  constructor
  · with_unfolding_all rfl
  · rintro ⟨l, hl⟩
    have h5 : underlyingHoldingsList (some "5") = PyJson.num 5 := by with_unfolding_all rfl
    rw [h5] at hl
    cases hl

/-- C10 witness: the amended theorem applied to a malformed payload and to
a one-element serialized list. -/
theorem C10_witness :
    underlyingHoldingsList (some "\x7b oops") = PyJson.arr [] ∧
    underlyingHoldingsList (some "[\x7b\"symbol\": \"AAPL\", \"weight\": 0.05\x7d]") =
      PyJson.arr [PyJson.obj [("symbol", PyJson.str "AAPL"),
                              ("weight", PyJson.num (1/20))]] := by
  constructor
  · exact (C10_underlying_list_total "\x7b oops").2.2.1 (by with_unfolding_all rfl)
  · exact (C10_underlying_list_total "[\x7b\"symbol\": \"AAPL\", \"weight\": 0.05\x7d]").2.2.2
      _ (by with_unfolding_all rfl) (by simp)

set_option maxHeartbeats 1000000 in
/-- C9: for Merrill, a row whose symbol cell normalises to the empty string,
whose description is cash-detected, and whose extracted cash value is nonzero
parses to a holding with symbol `CASH`, quantity 1, price and total value both
equal to the extracted cash value, and asset type `cash`; for Fidelity, every
holding built by `_get_cash_as_holdings` has quantity 1, price equal to its
total value and asset type `cash`, but its symbol is the stored record's
symbol with trailing asterisks stripped (`CASH` is only the default for an
absent key), not unconditionally `CASH`. -/
theorem C9_cash_row_parsing :
    (∀ (assetTypeOf : String → String → String) (cols : MerrillColumns)
        (row : List (String × Option String)),
        normalizeSymbol (getCell row cols.symbol) = "" →
        merrillIsCashHolding "" (merrillRowDescription cols row) = true →
        merrillRowCashValue cols row ≠ 0 →
        merrillParseRow assetTypeOf cols row =
          some ⟨"CASH",
                (if merrillRowDescription cols row != "" then merrillRowDescription cols row
                 else "CASH"),
                1, merrillRowCashValue cols row, merrillRowCashValue cols row, "cash",
                merrillRowAccountType cols row⟩) ∧
    (∀ (cash : List FidelityCashRecord) (h : FidelityCashHolding),
        h ∈ fidelityGetCashAsHoldings cash →
        h.quantity = 1 ∧ h.price = h.totalValue ∧ h.assetType = "cash" ∧
        ∃ c ∈ cash, h.symbol = rstripStars c.symbol ∧ h.name = c.description) := by
  constructor
  · intro assetTypeOf cols row hsym hcash hval
    have h1 : (("" : String) != "") = false := rfl
    have h2 : (["TOTAL", "BALANCES", "CASH BALANCE", "PENDING ACTIVITY", "PENDING"].contains
        ("" : String)) = false := rfl
    have h3 : (("" : String) == "") = true := rfl
    have hfold :
        (if (merrillRowValue0 cols row == 0) = true then
           (scanDollarValue row (fun c => c != cols.value)).getD (merrillRowValue0 cols row)
         else merrillRowValue0 cols row) = merrillRowCashValue cols row := rfl
    have hne : (merrillRowCashValue cols row == 0) = false := by
      cases hb : merrillRowCashValue cols row == 0
      · rfl
      · exact absurd (eq_of_beq hb) hval
    simp only [merrillParseRow]
    simp only [hsym, hcash, h1, h2, h3, Bool.false_and, Bool.and_true,
      Bool.not_true, Bool.and_false, Bool.true_or, Bool.false_eq_true, ite_false, ite_true,
      if_false, if_true, eq_self_iff_true]
    rw [hfold, hne]
    rfl
  · intro cash h hmem
    simp only [fidelityGetCashAsHoldings, List.mem_map] at hmem
    obtain ⟨c, hc, rfl⟩ := hmem
    exact ⟨rfl, rfl, rfl, c, hc, rfl, rfl⟩

theorem C9_cash_row_parsing_witness :
    merrillParseRow (fun _ _ => "stock") c9Cols c9Row =
      some ⟨"CASH",
            (if merrillRowDescription c9Cols c9Row != "" then merrillRowDescription c9Cols c9Row
             else "CASH"),
            1, merrillRowCashValue c9Cols c9Row, merrillRowCashValue c9Cols c9Row, "cash",
            merrillRowAccountType c9Cols c9Row⟩ ∧
    (⟨"", "Held in Money Market", 1, 500, 500, 500, "cash", "X123", "Brokerage", "fidelity"⟩ :
        FidelityCashHolding).quantity = 1 :=
  ⟨C9_cash_row_parsing.1 (fun _ _ => "stock") c9Cols c9Row
      (by with_unfolding_all rfl)
      (of_decide_eq_true (by with_unfolding_all rfl))
      (by with_unfolding_all exact of_decide_eq_true rfl),
   (C9_cash_row_parsing.2 [c9FidelityRecord]
      ⟨"", "Held in Money Market", 1, 500, 500, 500, "cash", "X123", "Brokerage", "fidelity"⟩
      (by with_unfolding_all exact List.Mem.head _)).1⟩

/-- The Fidelity parser accepts a money-market row whose symbol cell is empty
(the key is present with value the empty string), and the resulting cash
holding keeps the empty symbol rather than `CASH`. -/
theorem C9_counterexample :
    fidelityRowCashRecord "X123" "Brokerage" "" "Held in Money Market" "$500.00" "" =
      some c9FidelityRecord ∧
    ∃ h ∈ fidelityGetCashAsHoldings [c9FidelityRecord],
      h.assetType = "cash" ∧ h.quantity = 1 ∧ h.symbol ≠ "CASH" :=
  ⟨by with_unfolding_all rfl,
   ⟨⟨"", "Held in Money Market", 1, 500, 500, 500, "cash", "X123", "Brokerage", "fidelity"⟩,
    by with_unfolding_all exact List.Mem.head _,
    rfl, rfl, by with_unfolding_all exact fun hc => nomatch hc⟩⟩

/-- C3: in a run whose holdings and providers are all healthy but whose first
database commit raises an unexpected exception, the exception propagates out
of `resolve_snapshot_holdings` before `complete_resolution` is ever called
and the background wrapper swallows it, so the tracker is left with
`is_running = true` forever and its bounded error list stays empty — the
claimed terminal state and error surfacing both fail. -/
theorem C3_exception_leaves_tracker_running :
    c3Run.returned = none ∧ c3Run.tracker.isRunning = true ∧ c3Run.tracker.errors = [] ∧
    resolveHoldingsBackground c3Search c3Table (fun _ => none) (fun _ => false)
      [c3Fund] [] {} 5 = c3Run :=
  ⟨by with_unfolding_all rfl, by with_unfolding_all rfl, by with_unfolding_all rfl, rfl⟩

/-- With every constituent's sector already known, the STEP 3 constituent
loop only updates the tracker: same list, same state otherwise, count up by
the list length. -/
theorem enrichLoop_all_known (provider : String → Option RawInfo) (ps : String) (p0 : ℕ) :
    ∀ (l : List Constituent) (idx : ℕ) (st : OrchState) (enr : ℕ),
    (∀ c ∈ l, hasKnownSector c = true) →
    ∃ tr, enrichConstituentsLoop provider ps p0 l idx st enr =
      (l, { st with tracker := tr }, enr + l.length) := by
  intro l
  induction l with
  | nil =>
      intro idx st enr _
      exact ⟨st.tracker, rfl⟩
  | cons c rest ih =>
      intro idx st enr hk
      have hc : hasKnownSector c = true := hk c (List.mem_cons_self c rest)
      obtain ⟨tr', htr'⟩ := ih (idx + 1)
        { st with tracker := (updateProgress st.tracker "underlying_info"
            (some (ps ++ " → " ++ c.symbol ++ " (cached)"))
            none none none (some (p0 + idx)) none true) }
        (enr + 1) (fun c' hc' => hk c' (List.mem_cons_of_mem c hc'))
      refine ⟨tr', ?_⟩
      simp only [enrichConstituentsLoop, hc, if_true]
      rw [htr']
      simp only [List.length_cons, Prod.mk.injEq]
      exact ⟨trivial, trivial, by omega⟩

/-- Rewriting a holding's `underlying` column with its current value is the
identity. -/
theorem holding_set_underlying_self {h : Holding} {l : List Constituent}
    (hu : h.underlying = some l) : { h with underlying := some l } = h := by
  cases h
  simp only [] at hu
  rw [hu]

/-- With every constituent's sector known, enriching one fund holding
rewrites the same constituent list back and changes only the tracker. -/
theorem fetchSector_all_known (provider : String → Option RawInfo)
    (st : OrchState) (h : Holding) (p t : ℕ)
    (hk : ∀ c ∈ h.underlyingList, hasKnownSector c = true) :
    ∃ tr enr, fetchSectorInfoUnderlyingWithTracking provider st h p t =
      (h, { st with tracker := tr }, enr) := by
  unfold fetchSectorInfoUnderlyingWithTracking
  cases he : h.underlyingList.isEmpty with
  | true =>
      simp only [he, if_true]
      exact ⟨st.tracker, 0, rfl⟩
  | false =>
      simp only [he, Bool.false_eq_true, if_false]
      obtain ⟨tr, htr⟩ := enrichLoop_all_known provider h.symbol p
        h.underlyingList 1 st 0 hk
      rw [htr]
      have hu : h.underlying = some h.underlyingList := by
        cases hux : h.underlying with
        | none =>
            exfalso
            have : h.underlyingList = [] := by
              unfold Holding.underlyingList
              rw [hux]
              rfl
            rw [this] at he
            exact absurd he (by simp)
        | some l =>
            unfold Holding.underlyingList
            rw [hux]
            rfl
      exact ⟨tr, 0 + h.underlyingList.length,
        by rw [holding_set_underlying_self hu]⟩

/-- The STEP 3 commit loop over already-enriched fund holdings preserves
the holdings table, the committed snapshot of it, the cache and the call
count — on the normal exit and at every exception exit alike. -/
theorem step3Loop_frame (provider : String → Option RawInfo) (commitOk : ℕ → Bool) :
    ∀ (l : List Holding) (processed total : ℕ) (st : OrchState) (enr : ℕ),
    (∀ h ∈ l, h ∈ st.working) →
    (∀ h ∈ l, ∀ c ∈ h.underlyingList, hasKnownSector c = true) →
    (∀ x ∈ st.working, ∀ y ∈ st.working, x.id = y.id → x = y) →
    st.committed = st.working →
    (match step3Loop provider commitOk l processed total st enr with
     | Except.ok (st', _) =>
         st'.working = st.working ∧ st'.committed = st.working ∧
         st'.cache = st.cache ∧ st'.calls = st.calls
     | Except.error e =>
         e.working = st.working ∧ e.committed = st.working ∧
         e.cache = st.cache ∧ e.calls = st.calls) := by
  intro l
  induction l with
  | nil =>
      intro processed total st enr _ _ _ hcom
      simp only [step3Loop]
      exact ⟨trivial, hcom, trivial, trivial⟩
  | cons h rest ih =>
      intro processed total st enr hmem hk hinj hcom
      obtain ⟨tr, enr0, hout⟩ := fetchSector_all_known provider st h processed total
        (hk h (List.mem_cons_self h rest))
      have hupd : updateById st.working h = st.working :=
        updateById_eq_self (fun x hx hxid =>
          hinj x hx h (hmem h (List.mem_cons_self h rest)) hxid)
      simp only [step3Loop]
      rw [hout]
      simp only [hupd]
      unfold tryCommit
      cases hco : commitOk st.commitIdx with
      | true =>
          simp only [hco, if_true]
          exact ih (processed + h.underlyingList.length) total
            ⟨st.working, st.working, st.cache, tr, st.calls, st.commitIdx + 1⟩
            (enr + enr0)
            (fun h' hh' => hmem h' (List.mem_cons_of_mem h hh'))
            (fun h' hh' => hk h' (List.mem_cons_of_mem h hh'))
            hinj rfl
      | false =>
          simp only [hco, Bool.false_eq_true, if_false]
          exact ⟨trivial, hcom, trivial, trivial⟩

/-- `step3Loop_frame` specialised to a normal exit. -/
theorem step3Loop_frame_ok {provider : String → Option RawInfo} {commitOk : ℕ → Bool}
    {l : List Holding} {p t : ℕ} {st : OrchState} {enr : ℕ} {st' : OrchState} {n : ℕ}
    (heq : step3Loop provider commitOk l p t st enr = Except.ok (st', n))
    (hmem : ∀ h ∈ l, h ∈ st.working)
    (hk : ∀ h ∈ l, ∀ c ∈ h.underlyingList, hasKnownSector c = true)
    (hinj : ∀ x ∈ st.working, ∀ y ∈ st.working, x.id = y.id → x = y)
    (hcom : st.committed = st.working) :
    st'.working = st.working ∧ st'.committed = st.working ∧
    st'.cache = st.cache ∧ st'.calls = st.calls := by
  have hT := step3Loop_frame provider commitOk l p t st enr hmem hk hinj hcom
  rw [heq] at hT
  exact hT

/-- `step3Loop_frame` specialised to an exception exit. -/
theorem step3Loop_frame_err {provider : String → Option RawInfo} {commitOk : ℕ → Bool}
    {l : List Holding} {p t : ℕ} {st : OrchState} {enr : ℕ} {e : OrchState}
    (heq : step3Loop provider commitOk l p t st enr = Except.error e)
    (hmem : ∀ h ∈ l, h ∈ st.working)
    (hk : ∀ h ∈ l, ∀ c ∈ h.underlyingList, hasKnownSector c = true)
    (hinj : ∀ x ∈ st.working, ∀ y ∈ st.working, x.id = y.id → x = y)
    (hcom : st.committed = st.working) :
    e.working = st.working ∧ e.committed = st.working ∧
    e.cache = st.cache ∧ e.calls = st.calls := by
  have hT := step3Loop_frame provider commitOk l p t st enr hmem hk hinj hcom
  rw [heq] at hT
  exact hT

/-- C1 (amended): re-running the orchestrator on a snapshot whose holdings
all have `underlying_parsed = info_fetched = true` AND whose stored
constituents all already carry a known sector performs zero external calls
and leaves the holdings table and the cache unchanged; without the extra
sector condition the flags alone do not make the re-run a no-op, because
phase 3 re-enriches constituents regardless of the flags. -/
theorem C1_resolution_idempotent (search : String → Option FundInfo)
    (table : String → Option (List ProviderRow))
    (provider : String → Option RawInfo) (commitOk : ℕ → Bool)
    (db : List Holding) (cache : Cache) (tracker0 : Tracker) (snapshotId : ℕ)
    (hinj : ∀ x ∈ db, ∀ y ∈ db, x.id = y.id → x = y)
    (hflags : ∀ h ∈ db, h.portfolioSnapshotId = snapshotId →
      h.underlyingParsed = true ∧ h.infoFetched = true)
    (hknown : ∀ h ∈ db, h.portfolioSnapshotId = snapshotId →
      ∀ c ∈ h.underlyingList, hasKnownSector c = true) :
    (resolveSnapshotHoldings search table provider commitOk db cache tracker0
        snapshotId).db = db ∧
    (resolveSnapshotHoldings search table provider commitOk db cache tracker0
        snapshotId).cache = cache ∧
    (resolveSnapshotHoldings search table provider commitOk db cache tracker0
        snapshotId).calls = 0 := by
  have hmemsnap : ∀ h, h ∈ db.filter (fun h => h.portfolioSnapshotId == snapshotId) →
      h ∈ db ∧ h.portfolioSnapshotId = snapshotId := by
    intro h hh
    have hm := List.mem_filter.mp hh
    exact ⟨hm.1, by simpa using hm.2⟩
  simp only [resolveSnapshotHoldings]
  cases hall : (db.filter (fun h => h.portfolioSnapshotId == snapshotId)).isEmpty with
  | true =>
      simp only [hall, if_true]
      exact ⟨trivial, trivial, trivial⟩
  | false =>
      simp only [hall, Bool.false_eq_true, if_false]
      have hetf : List.filter (fun h =>
          (h.assetType == "etf" || h.assetType == "mutual_fund") && !h.underlyingParsed)
          (List.filter (fun h => h.portfolioSnapshotId == snapshotId) db) = [] := by
        rw [List.filter_eq_nil_iff]
        intro a ha hpa
        obtain ⟨hadb, hasnap⟩ := hmemsnap a ha
        have hup := (hflags a hadb hasnap).1
        rw [Bool.and_eq_true, hup] at hpa
        exact absurd hpa.2 (by simp)
      have hneed : List.filter (fun h =>
          h.portfolioSnapshotId == snapshotId && !h.infoFetched) db = [] := by
        rw [List.filter_eq_nil_iff]
        intro a ha hpa
        rw [Bool.and_eq_true] at hpa
        have hasnap : a.portfolioSnapshotId = snapshotId := by simpa using hpa.1
        have hinfo := (hflags a ha hasnap).2
        rw [hinfo] at hpa
        exact absurd hpa.2 (by simp)
      simp only [hetf, hneed, List.isEmpty_nil, Bool.not_true, Bool.false_eq_true, if_false]
      have hmem3 : ∀ h ∈ List.filter (fun h =>
          h.portfolioSnapshotId == snapshotId &&
          (h.assetType == "etf" || h.assetType == "mutual_fund") &&
          !h.underlyingList.isEmpty) db, h ∈ db :=
        fun h hh => (List.mem_filter.mp hh).1
      have hk3 : ∀ h ∈ List.filter (fun h =>
          h.portfolioSnapshotId == snapshotId &&
          (h.assetType == "etf" || h.assetType == "mutual_fund") &&
          !h.underlyingList.isEmpty) db,
          ∀ c ∈ h.underlyingList, hasKnownSector c = true := by
        intro h hh
        have hm := List.mem_filter.mp hh
        have hsnap : h.portfolioSnapshotId = snapshotId := by
          have hb := hm.2
          rw [Bool.and_eq_true, Bool.and_eq_true] at hb
          simpa using hb.1.1
        exact hknown h hm.1 hsnap
      cases hwu : (List.filter (fun h =>
          h.portfolioSnapshotId == snapshotId &&
          (h.assetType == "etf" || h.assetType == "mutual_fund") &&
          !h.underlyingList.isEmpty) db).isEmpty with
      | true =>
          simp only [hwu, Bool.not_true, Bool.false_eq_true, if_false]
          exact ⟨trivial, trivial, trivial⟩
      | false =>
          simp only [hwu, Bool.not_false, eq_self_iff_true, if_true]
          split
          next e heq =>
            have hfr := step3Loop_frame_err heq hmem3 hk3 hinj rfl
            simp only [mkRaisedResult]
            exact ⟨hfr.2.1, hfr.2.2.1, hfr.2.2.2⟩
          next st3 ec heq =>
            have hfr := step3Loop_frame_ok heq hmem3 hk3 hinj rfl
            exact ⟨hfr.1, hfr.2.2.1, hfr.2.2.2⟩

/-- A holding with both resolution flags set but a stored constituent
without sector data: the re-run makes one external call and rewrites the
stored constituent (and the cache), so the flags alone do not give
idempotence. -/
theorem C1_counterexample :
    (c1Fund.underlyingParsed = true ∧ c1Fund.infoFetched = true) ∧
    c1Run.calls = 1 ∧ c1Run.db ≠ [c1Fund] ∧
    c1Run.db = [{ c1Fund with underlying := some [c1UnknownConstituent] }] :=
  ⟨⟨rfl, rfl⟩, by with_unfolding_all rfl,
   of_decide_eq_true (by with_unfolding_all rfl),
   by with_unfolding_all rfl⟩

/-- C1 witness: the amended theorem applied to a snapshot whose only
holding is fully enriched. -/
theorem C1_witness :
    (resolveSnapshotHoldings c3Search c3Table (fun _ => none) (fun _ => true)
        [c1FundKnown] [] {} 5).db = [c1FundKnown] ∧
    (resolveSnapshotHoldings c3Search c3Table (fun _ => none) (fun _ => true)
        [c1FundKnown] [] {} 5).cache = [] ∧
    (resolveSnapshotHoldings c3Search c3Table (fun _ => none) (fun _ => true)
        [c1FundKnown] [] {} 5).calls = 0 :=
  C1_resolution_idempotent c3Search c3Table (fun _ => none) (fun _ => true)
    [c1FundKnown] [] {} 5
    (by
      intro x hx y hy _
      rw [List.mem_singleton.mp hx, List.mem_singleton.mp hy])
    (by
      intro h hm _
      rw [List.mem_singleton.mp hm]
      exact ⟨rfl, rfl⟩)
    (by
      intro h hm _ c hc
      rw [List.mem_singleton.mp hm] at hc
      have hl : c1FundKnown.underlyingList = [c1Constituent] := by with_unfolding_all rfl
      rw [hl] at hc
      rw [List.mem_singleton.mp hc]
      with_unfolding_all rfl)

theorem lookupNat_resolveMultiple_none (search : String → Option FundInfo)
    (table : String → Option (List ProviderRow)) (k : ℕ) :
    ∀ (l : List Holding) (acc : List (ℕ × FundResult)),
    (∀ h ∈ l, h.id = k →
      resolveHolding search table h.symbol h.assetType h.totalValue = none) →
    lookupNat (l.foldl (fun acc h =>
      match resolveHolding search table h.symbol h.assetType h.totalValue with
      | some r => acc ++ [(h.id, r)]
      | none => acc) acc) k = lookupNat acc k := by
  intro l
  induction l with
  | nil => intro acc _; rfl
  | cons h rest ih =>
      intro acc hres
      simp only [List.foldl_cons]
      cases hr : resolveHolding search table h.symbol h.assetType h.totalValue with
      | none =>
          exact ih acc (fun h' hh' => hres h' (List.mem_cons_of_mem h hh'))
      | some r =>
          have hid : h.id ≠ k := by
            intro hk
            rw [hres h (List.mem_cons_self h rest) hk] at hr
            exact absurd hr (by simp)
          rw [ih (acc ++ [(h.id, r)]) (fun h' hh' => hres h' (List.mem_cons_of_mem h hh'))]
          unfold lookupNat
          rw [List.find?_append]
          cases hf : acc.find? (fun p => p.1 == k) with
          | some p => rfl
          | none =>
              simp only [Option.none_or]
              have : ((h.id, r).1 == k) = false := by simpa using hid
              simp [List.find?, this]

theorem lookupNat_resolveMultiple (search : String → Option FundInfo)
    (table : String → Option (List ProviderRow)) (k : ℕ) (l : List Holding)
    (hres : ∀ h ∈ l, h.id = k →
      resolveHolding search table h.symbol h.assetType h.totalValue = none) :
    lookupNat (resolveMultipleHoldings search table l) k = none := by
  unfold resolveMultipleHoldings
  rw [lookupNat_resolveMultiple_none search table k l [] hres]
  rfl

theorem step1NewHolding_id (r : FundResult) (h : Holding) :
    (step1NewHolding r h).1.id = h.id := by
  simp only [step1NewHolding]
  repeat' split
  all_goals rfl

theorem step1Apply_append (results : List (ℕ × FundResult)) :
    ∀ (l1 l2 : List Holding) (st : OrchState) (r a : ℕ),
    step1Apply results (l1 ++ l2) st r a =
      step1Apply results l2 (step1Apply results l1 st r a).1
        (step1Apply results l1 st r a).2.1 (step1Apply results l1 st r a).2.2 := by
  intro l1
  induction l1 with
  | nil => intro l2 st r a; rfl
  | cons h rest ih =>
      intro l2 st r a
      simp only [List.cons_append, step1Apply]
      cases hl : lookupNat results h.id with
      | some fr => exact ih l2 _ _ _
      | none => exact ih l2 _ _ _

theorem step1_reestablish (results : List (ℕ × FundResult)) (k : ℕ) :
    ∀ (l : List Holding) (st : OrchState) (r a : ℕ),
    (∀ h ∈ l, h.id = k → lookupNat results k = none ∧ h.underlying = none) →
    (∀ x ∈ st.working, x.id = k →
      x.underlyingParsed = true ∧ x.underlying = none) →
    ∀ x ∈ (step1Apply results l st r a).1.working, x.id = k →
      x.underlyingParsed = true ∧ x.underlying = none := by
  intro l
  induction l with
  | nil => intro st r a _ hst; exact hst
  | cons h rest ih =>
      intro st r a hl hst
      simp only [step1Apply]
      cases hlook : lookupNat results h.id with
      | some fr =>
          apply ih _ _ _ (fun h' hh' => hl h' (List.mem_cons_of_mem h hh'))
          intro x hx hxk
          rcases mem_updateById hx with hx1 | hx2
          · exfalso
            have hhk : h.id = k := by
              rw [← step1NewHolding_id fr h, ← hx1]
              exact hxk
            have hn := (hl h (List.mem_cons_self h rest) hhk).1
            rw [hhk, hn] at hlook
            exact absurd hlook (by simp)
          · exact hst x hx2.1 hxk
      | none =>
          apply ih _ _ _ (fun h' hh' => hl h' (List.mem_cons_of_mem h hh'))
          intro x hx hxk
          rcases mem_updateById hx with hx1 | hx2
          · constructor
            · rw [hx1]
            · rw [hx1]
              by_cases hhk : h.id = k
              · exact (hl h (List.mem_cons_self h rest) hhk).2
              · exfalso
                rw [hx1] at hxk
                exact hhk hxk
          · exact hst x hx2.1 hxk

theorem fetchInfo_facts (provider : String → Option RawInfo) (st : OrchState) (h : Holding) :
    (fetchStockInfoForHolding provider st h).1.id = h.id ∧
    (fetchStockInfoForHolding provider st h).1.underlyingParsed = h.underlyingParsed ∧
    (fetchStockInfoForHolding provider st h).1.underlying = h.underlying ∧
    (fetchStockInfoForHolding provider st h).2.1.working = st.working := by
  unfold fetchStockInfoForHolding
  split
  · exact ⟨rfl, rfl, rfl, rfl⟩
  · exact ⟨rfl, rfl, rfl, rfl⟩

theorem step2Loop_inv (provider : String → Option RawInfo) (k : ℕ) :
    ∀ (l : List Holding) (idx : ℕ) (st : OrchState) (count : ℕ),
    (∀ x ∈ l, x.id = k → x.underlyingParsed = true ∧ x.underlying = none) →
    (∀ x ∈ st.working, x.id = k → x.underlyingParsed = true ∧ x.underlying = none) →
    (match step2Loop provider (fun _ => true) l idx st count with
     | Except.ok (st', _) => ∀ x ∈ st'.working, x.id = k →
         x.underlyingParsed = true ∧ x.underlying = none
     | Except.error _ => False) := by
  intro l
  induction l with
  | nil =>
      intro idx st count _ hst
      simp only [step2Loop, tryCommit, eq_self_iff_true, if_true]
      exact hst
  | cons h rest ih =>
      intro idx st count hl hst
      simp only [step2Loop]
      generalize hF : fetchStockInfoForHolding provider
        { st with tracker := (updateProgress st.tracker "parent_info" (some h.symbol)
            none none (some idx) none none false) } h = F
      have hf := fetchInfo_facts provider
        { st with tracker := (updateProgress st.tracker "parent_info" (some h.symbol)
            none none (some idx) none none false) } h
      rw [hF] at hf
      have hw : ∀ x ∈ updateById F.2.1.working F.1, x.id = k →
          x.underlyingParsed = true ∧ x.underlying = none := by
        intro x hx hxk
        rcases mem_updateById hx with h1 | h2
        · have hhk : h.id = k := by
            rw [← hf.1, ← h1]
            exact hxk
          have hQ := hl h (List.mem_cons_self h rest) hhk
          constructor
          · rw [h1, hf.2.1, hQ.1]
          · rw [h1, hf.2.2.1, hQ.2]
        · exact hst x (hf.2.2.2 ▸ h2.1) hxk
      cases hmod : (idx % 10 == 0) with
      | true =>
          simp only [hmod, if_true, tryCommit, eq_self_iff_true]
          exact ih (idx + 1) _ _
            (fun x hx hxk => hl x (List.mem_cons_of_mem h hx) hxk) hw
      | false =>
          simp only [hmod, Bool.false_eq_true, if_false]
          exact ih (idx + 1) _ _
            (fun x hx hxk => hl x (List.mem_cons_of_mem h hx) hxk) hw

theorem enrichLoop_state (provider : String → Option RawInfo) (ps : String) (p0 : ℕ) :
    ∀ (l : List Constituent) (idx : ℕ) (st : OrchState) (enr : ℕ),
    (enrichConstituentsLoop provider ps p0 l idx st enr).2.1.working = st.working := by
  intro l
  induction l with
  | nil => intro idx st enr; rfl
  | cons c rest ih =>
      intro idx st enr
      simp only [enrichConstituentsLoop]
      cases hc : hasKnownSector c with
      | true =>
          simp only [hc, if_true]
          exact ih (idx + 1) _ _
      | false =>
          simp only [hc, Bool.false_eq_true, if_false]
          exact ih (idx + 1) _ _

theorem fetchSector_facts (provider : String → Option RawInfo) (st : OrchState)
    (h : Holding) (p t : ℕ) :
    (fetchSectorInfoUnderlyingWithTracking provider st h p t).1.id = h.id ∧
    (fetchSectorInfoUnderlyingWithTracking provider st h p t).2.1.working = st.working := by
  unfold fetchSectorInfoUnderlyingWithTracking
  split
  · exact ⟨rfl, rfl⟩
  · exact ⟨rfl, enrichLoop_state provider h.symbol p h.underlyingList 1 st 0⟩

theorem step3Loop_inv (provider : String → Option RawInfo) (k : ℕ) :
    ∀ (l : List Holding) (p t : ℕ) (st : OrchState) (enr : ℕ),
    (∀ x ∈ l, x.id ≠ k) →
    (∀ x ∈ st.working, x.id = k → x.underlyingParsed = true ∧ x.underlying = none) →
    (match step3Loop provider (fun _ => true) l p t st enr with
     | Except.ok (st', _) => ∀ x ∈ st'.working, x.id = k →
         x.underlyingParsed = true ∧ x.underlying = none
     | Except.error _ => False) := by
  intro l
  induction l with
  | nil =>
      intro p t st enr _ hst
      simp only [step3Loop]
      exact hst
  | cons h rest ih =>
      intro p t st enr hl hst
      simp only [step3Loop]
      generalize hF : fetchSectorInfoUnderlyingWithTracking provider st h p t = F
      have hf := fetchSector_facts provider st h p t
      rw [hF] at hf
      have hw : ∀ x ∈ updateById F.2.1.working F.1, x.id = k →
          x.underlyingParsed = true ∧ x.underlying = none := by
        intro x hx hxk
        rcases mem_updateById hx with h1 | h2
        · exfalso
          apply hl h (List.mem_cons_self h rest)
          rw [← hf.1, ← h1]
          exact hxk
        · exact hst x (hf.2 ▸ h2.1) hxk
      simp only [tryCommit, eq_self_iff_true, if_true]
      exact ih _ t _ _
        (fun x hx => hl x (List.mem_cons_of_mem h hx)) hw

theorem step2Loop_inv_ok {provider : String → Option RawInfo} {k : ℕ}
    {l : List Holding} {idx : ℕ} {st : OrchState} {count : ℕ}
    {st' : OrchState} {c' : ℕ}
    (heq : step2Loop provider (fun _ => true) l idx st count = Except.ok (st', c'))
    (hl : ∀ x ∈ l, x.id = k → x.underlyingParsed = true ∧ x.underlying = none)
    (hst : ∀ x ∈ st.working, x.id = k → x.underlyingParsed = true ∧ x.underlying = none) :
    ∀ x ∈ st'.working, x.id = k → x.underlyingParsed = true ∧ x.underlying = none := by
  have hT := step2Loop_inv provider k l idx st count hl hst
  rw [heq] at hT
  exact hT

theorem step2Loop_inv_err {provider : String → Option RawInfo} {k : ℕ}
    {l : List Holding} {idx : ℕ} {st : OrchState} {count : ℕ} {e : OrchState}
    (heq : step2Loop provider (fun _ => true) l idx st count = Except.error e)
    (hl : ∀ x ∈ l, x.id = k → x.underlyingParsed = true ∧ x.underlying = none)
    (hst : ∀ x ∈ st.working, x.id = k → x.underlyingParsed = true ∧ x.underlying = none) :
    False := by
  have hT := step2Loop_inv provider k l idx st count hl hst
  rw [heq] at hT
  exact hT

theorem step3Loop_inv_ok {provider : String → Option RawInfo} {k : ℕ}
    {l : List Holding} {p t : ℕ} {st : OrchState} {enr : ℕ}
    {st' : OrchState} {n : ℕ}
    (heq : step3Loop provider (fun _ => true) l p t st enr = Except.ok (st', n))
    (hl : ∀ x ∈ l, x.id ≠ k)
    (hst : ∀ x ∈ st.working, x.id = k → x.underlyingParsed = true ∧ x.underlying = none) :
    ∀ x ∈ st'.working, x.id = k → x.underlyingParsed = true ∧ x.underlying = none := by
  have hT := step3Loop_inv provider k l p t st enr hl hst
  rw [heq] at hT
  exact hT

theorem step3Loop_inv_err {provider : String → Option RawInfo} {k : ℕ}
    {l : List Holding} {p t : ℕ} {st : OrchState} {enr : ℕ} {e : OrchState}
    (heq : step3Loop provider (fun _ => true) l p t st enr = Except.error e)
    (hl : ∀ x ∈ l, x.id ≠ k)
    (hst : ∀ x ∈ st.working, x.id = k → x.underlyingParsed = true ∧ x.underlying = none) :
    False := by
  have hT := step3Loop_inv provider k l p t st enr hl hst
  rw [heq] at hT
  exact hT

theorem step1_full (search : String → Option FundInfo)
    (table : String → Option (List ProviderRow)) (k : ℕ) (l : List Holding)
    (st : OrchState) (h0 : Holding)
    (hmem : h0 ∈ l) (hid : h0.id = k) (hund : h0.underlying = none)
    (hresall : ∀ h ∈ l, h.id = k →
      resolveHolding search table h.symbol h.assetType h.totalValue = none)
    (hundall : ∀ h ∈ l, h.id = k → h.underlying = none) :
    ∀ x ∈ (step1Apply (resolveMultipleHoldings search table l) l st 0 0).1.working,
      x.id = k → x.underlyingParsed = true ∧ x.underlying = none := by
  obtain ⟨l1, l2, hsplit⟩ := List.append_of_mem hmem
  subst hsplit
  have hlookup : lookupNat (resolveMultipleHoldings search table (l1 ++ h0 :: l2)) k =
      none := lookupNat_resolveMultiple search table k _ hresall
  rw [step1Apply_append]
  simp only [step1Apply]
  rw [hid, hlookup]
  apply step1_reestablish
  · intro h hh hhk
    exact ⟨hlookup, hundall h (by
      exact List.mem_append.mpr (Or.inr (List.mem_cons_of_mem h0 hh))) hhk⟩
  · intro x hx hxk
    rcases mem_updateById hx with h1 | h2
    · exact ⟨by rw [h1], by rw [h1]; exact hund⟩
    · exfalso
      exact h2.2 hxk

theorem filter_underlying_no_k (k sid : ℕ) (W : List Holding)
    (hst : ∀ x ∈ W, x.id = k → x.underlyingParsed = true ∧ x.underlying = none) :
    ∀ x ∈ W.filter (fun h => h.portfolioSnapshotId == sid &&
        (h.assetType == "etf" || h.assetType == "mutual_fund") &&
        !h.underlyingList.isEmpty),
      x.id ≠ k := by
  intro x hx hxk
  have hm := List.mem_filter.mp hx
  have hu := (hst x hm.1 hxk).2
  have hl : x.underlyingList = [] := by
    unfold Holding.underlyingList
    rw [hu]
    rfl
  have hp := hm.2
  rw [Bool.and_eq_true] at hp
  rw [hl] at hp
  exact absurd hp.2 (by simp)

theorem resolveNone_marks_parsed (search : String → Option FundInfo)
    (table : String → Option (List ProviderRow))
    (provider : String → Option RawInfo)
    (db : List Holding) (cache : Cache) (tracker0 : Tracker) (snapshotId : ℕ)
    (h0 : Holding)
    (hinj : ∀ x ∈ db, ∀ y ∈ db, x.id = y.id → x = y)
    (hmem : h0 ∈ db) (hsnap : h0.portfolioSnapshotId = snapshotId)
    (htype : h0.assetType = "etf" ∨ h0.assetType = "mutual_fund")
    (hparsed : h0.underlyingParsed = false)
    (hund : h0.underlying = none)
    (hres : resolveHolding search table h0.symbol h0.assetType h0.totalValue = none) :
    ∀ x ∈ (resolveSnapshotHoldings search table provider (fun _ => true) db cache
        tracker0 snapshotId).db, x.id = h0.id →
      x.underlyingParsed = true ∧ x.underlying = none := by
  have hsnapb : (h0.portfolioSnapshotId == snapshotId) = true := by simpa using hsnap
  have htypeb : (h0.assetType == "etf" || h0.assetType == "mutual_fund") = true := by
    rcases htype with ht | ht <;> rw [ht] <;> rfl
  have hmem0 : h0 ∈ db.filter (fun h => h.portfolioSnapshotId == snapshotId) :=
    List.mem_filter.mpr ⟨hmem, hsnapb⟩
  have hmem1 : h0 ∈ (db.filter (fun h => h.portfolioSnapshotId == snapshotId)).filter
      (fun h => (h.assetType == "etf" || h.assetType == "mutual_fund")
        && !h.underlyingParsed) :=
    List.mem_filter.mpr ⟨hmem0, by rw [htypeb, hparsed]; rfl⟩
  have hall : (db.filter (fun h => h.portfolioSnapshotId == snapshotId)).isEmpty = false := by
    cases hc : (db.filter (fun h => h.portfolioSnapshotId == snapshotId)) with
    | nil => rw [hc] at hmem0; exact absurd hmem0 (by simp)
    | cons a l => rfl
  have hetf : ((db.filter (fun h => h.portfolioSnapshotId == snapshotId)).filter
      (fun h => (h.assetType == "etf" || h.assetType == "mutual_fund")
        && !h.underlyingParsed)).isEmpty = false := by
    cases hc : ((db.filter (fun h => h.portfolioSnapshotId == snapshotId)).filter
      (fun h => (h.assetType == "etf" || h.assetType == "mutual_fund")
        && !h.underlyingParsed)) with
    | nil => rw [hc] at hmem1; exact absurd hmem1 (by simp)
    | cons a l => rfl
  have hA : ∀ h ∈ (db.filter (fun h => h.portfolioSnapshotId == snapshotId)).filter
      (fun h => (h.assetType == "etf" || h.assetType == "mutual_fund") && !h.underlyingParsed),
      h.id = h0.id →
      resolveHolding search table h.symbol h.assetType h.totalValue = none := by
    intro h hh hk
    have hdb : h ∈ db := (List.mem_filter.mp (List.mem_filter.mp hh).1).1
    rw [hinj h hdb h0 hmem hk]
    exact hres
  have hB : ∀ h ∈ (db.filter (fun h => h.portfolioSnapshotId == snapshotId)).filter
      (fun h => (h.assetType == "etf" || h.assetType == "mutual_fund") && !h.underlyingParsed),
      h.id = h0.id → h.underlying = none := by
    intro h hh hk
    have hdb : h ∈ db := (List.mem_filter.mp (List.mem_filter.mp hh).1).1
    rw [hinj h hdb h0 hmem hk]
    exact hund
  simp only [resolveSnapshotHoldings, hall, hetf, Bool.not_false, Bool.false_eq_true,
    if_false, eq_self_iff_true, if_true, tryCommit]
  split
  next e heq =>
    split at heq
    · exact ((step2Loop_inv_err heq
        (fun x hx hxk =>
          step1_full search table h0.id _ _ h0 hmem1 rfl hund hA hB x
            (List.mem_filter.mp hx).1 hxk)
        (fun x hx hxk =>
          step1_full search table h0.id _ _ h0 hmem1 rfl hund hA hB x hx hxk))).elim
    · exact Except.noConfusion heq
  next st3 ic heq =>
    have hst3 : ∀ x ∈ st3.working, x.id = h0.id →
        x.underlyingParsed = true ∧ x.underlying = none := by
      split at heq
      · exact step2Loop_inv_ok heq
          (fun x hx hxk =>
            step1_full search table h0.id _ _ h0 hmem1 rfl hund hA hB x
              (List.mem_filter.mp hx).1 hxk)
          (fun x hx hxk =>
            step1_full search table h0.id _ _ h0 hmem1 rfl hund hA hB x hx hxk)
      · have hpair := Except.ok.inj heq
        have hsteq : st3 = _ := (Prod.mk.injEq _ _ _ _).mp hpair |>.1 |>.symm
        rw [hsteq]
        exact fun x hx hxk =>
          step1_full search table h0.id _ _ h0 hmem1 rfl hund hA hB x hx hxk
    split
    next e2 heq2 =>
      split at heq2
      · exact ((step3Loop_inv_err heq2
          (filter_underlying_no_k h0.id snapshotId st3.working hst3) hst3)).elim
      · exact Except.noConfusion heq2
    next st4 ec heq2 =>
      split at heq2
      · exact fun x hx hxk => step3Loop_inv_ok heq2
          (filter_underlying_no_k h0.id snapshotId st3.working hst3) hst3 x hx hxk
      · have hpair := Except.ok.inj heq2
        have hsteq : st4 = st3 := ((Prod.mk.injEq _ _ _ _).mp hpair).1.symm
        rw [hsteq]
        exact hst3

theorem getUnderlying_ignores_unparsed (db : Db) (hs1 hs2 : List Holding) (h : Holding)
    (hu : h.underlying = none) (aggregated : List AggEntry) :
    getUnderlyingHoldings { db with holdings := hs1 ++ h :: hs2 } aggregated =
    getUnderlyingHoldings { db with holdings := hs1 ++ hs2 } aggregated := by
  unfold getUnderlyingHoldings
  apply congrArg (fun f => List.foldl f ([] : List (String × UnderlyingEntry)) aggregated)
  funext m entry
  cases hie : entry.isEtfOrMf with
  | false => simp only [hie, Bool.not_false, if_true]
  | true =>
      simp only [hie, Bool.not_true, Bool.false_eq_true, if_false]
      have hsid : underlyingSnapshotIds { db with holdings := hs1 ++ h :: hs2 } entry =
          underlyingSnapshotIds { db with holdings := hs1 ++ hs2 } entry := rfl
      rw [hsid]
      have hul : h.underlyingList = [] := by
        unfold Holding.underlyingList
        rw [hu]
        rfl
      rw [List.filter_append, List.filter_cons, List.filter_append]
      cases hph : ((underlyingSnapshotIds { db with holdings := hs1 ++ hs2 } entry).contains
          h.portfolioSnapshotId && h.symbol == entry.symbol) with
      | false =>
          simp only [hph, Bool.false_eq_true, if_false]
      | true =>
          simp only [hph, if_true]
          rw [List.foldl_append, List.foldl_cons, List.foldl_append]
          rw [hul, List.foldl_nil]

theorem lookupA_aggAdd_ne (db : Db) (s : Snapshot) (m : List (String × AggEntry))
    (h : Holding) (k : String) (hne : h.symbol ≠ k) :
    lookupA (aggAddHolding db s m h) k = lookupA m k := by
  unfold aggAddHolding
  rw [lookupA_insertA]
  rw [if_neg (fun hc : k = h.symbol => hne hc.symm)]

theorem lookupA_aggAdd_fresh (db : Db) (s : Snapshot) (m : List (String × AggEntry))
    (h : Holding) (hnone : lookupA m h.symbol = none) :
    ∃ e, lookupA (aggAddHolding db s m h) h.symbol = some e ∧
      e.symbol = h.symbol ∧ e.assetType = h.assetType ∧ e.totalValue = h.totalValue := by
  unfold aggAddHolding
  rw [lookupA_insertA, if_pos rfl, hnone]
  refine ⟨_, rfl, ?_, ?_, ?_⟩
  · simp only [Option.getD_none]
    rfl
  · simp only [Option.getD_none]
    rfl
  · simp only [Option.getD_none]
    show ({} : AggEntry).totalValue + h.totalValue = h.totalValue
    rw [show ({} : AggEntry).totalValue = 0 from rfl, zero_add]

theorem lookupA_aggAdd_accum (db : Db) (s : Snapshot) (m : List (String × AggEntry))
    (h : Holding) (e0 : AggEntry) (hk : h.symbol ≠ "")
    (hsome : lookupA m h.symbol = some e0) (hsym : e0.symbol = h.symbol) :
    ∃ e, lookupA (aggAddHolding db s m h) h.symbol = some e ∧
      e.symbol = e0.symbol ∧ e.assetType = e0.assetType ∧
      e.totalValue = e0.totalValue + h.totalValue := by
  unfold aggAddHolding
  rw [lookupA_insertA, if_pos rfl, hsome]
  have hb : (e0.symbol == "") = false := by
    rw [hsym]
    simpa using hk
  refine ⟨_, rfl, ?_, ?_, ?_⟩
  · simp only [Option.getD_some, hb, Bool.false_eq_true, if_false]
  · simp only [Option.getD_some, hb, Bool.false_eq_true, if_false]
  · simp only [Option.getD_some, hb, Bool.false_eq_true, if_false]

theorem agg_fold_value (db : Db) (k : String) (hk : k ≠ "") :
    ∀ (ps : List (Snapshot × Holding)) (m : List (String × AggEntry)) (e0 : AggEntry),
    lookupA m k = some e0 → e0.symbol = k →
    ∃ e, lookupA (ps.foldl (fun m p => aggAddHolding db p.1 m p.2) m) k = some e ∧
      e.symbol = k ∧ e.assetType = e0.assetType ∧
      e.totalValue = e0.totalValue +
        ((ps.filter (fun p => p.2.symbol == k)).map (fun p => p.2.totalValue)).sum := by
  intro ps
  induction ps with
  | nil =>
      intro m e0 hsome hsym
      exact ⟨e0, hsome, hsym, rfl, by simp⟩
  | cons p rest ih =>
      intro m e0 hsome hsym
      simp only [List.foldl_cons, List.filter_cons]
      cases hps : (p.2.symbol == k) with
      | true =>
          have hpk : p.2.symbol = k := by simpa using hps
          obtain ⟨e1, he1, hs1, ha1, hv1⟩ := lookupA_aggAdd_accum db p.1 m p.2 e0
            (by rw [hpk]; exact hk) (by rw [hpk]; exact hsome)
            (by rw [hsym, hpk])
          rw [hpk] at he1
          obtain ⟨e, he, hs, ha, hv⟩ := ih _ e1 he1 (by rw [hs1, hsym])
          refine ⟨e, he, hs, by rw [ha, ha1], ?_⟩
          rw [hv, hv1]
          simp only [hps, if_true, List.map_cons, List.sum_cons]
          ring
      | false =>
          have hpk : p.2.symbol ≠ k := by simpa using hps
          have hstep : lookupA (aggAddHolding db p.1 m p.2) k = some e0 := by
            rw [lookupA_aggAdd_ne db p.1 m p.2 k hpk]
            exact hsome
          obtain ⟨e, he, hs, ha, hv⟩ := ih _ e0 hstep hsym
          refine ⟨e, he, hs, ha, ?_⟩
          rw [hv]
          simp only [hps, Bool.false_eq_true, if_false]

theorem agg_fold_first (db : Db) (k : String) (hk : k ≠ "") :
    ∀ (ps : List (Snapshot × Holding)) (m : List (String × AggEntry)),
    lookupA m k = none →
    (∃ p ∈ ps, p.2.symbol = k) →
    ∃ e p0, lookupA (ps.foldl (fun m p => aggAddHolding db p.1 m p.2) m) k = some e ∧
      p0 ∈ ps ∧ p0.2.symbol = k ∧
      e.symbol = k ∧ e.assetType = p0.2.assetType ∧
      e.totalValue =
        ((ps.filter (fun p => p.2.symbol == k)).map (fun p => p.2.totalValue)).sum := by
  intro ps
  induction ps with
  | nil =>
      intro m _ hex
      exact absurd hex (by simp)
  | cons p rest ih =>
      intro m hnone hex
      simp only [List.foldl_cons, List.filter_cons]
      cases hps : (p.2.symbol == k) with
      | true =>
          have hpk : p.2.symbol = k := by simpa using hps
          obtain ⟨e1, he1, hs1, ha1, hv1⟩ := lookupA_aggAdd_fresh db p.1 m p.2
            (by rw [hpk]; exact hnone)
          rw [hpk] at he1
          obtain ⟨e, he, hs, ha, hv⟩ := agg_fold_value db k hk rest _ e1 he1
            (by rw [hs1, hpk])
          refine ⟨e, p, he, List.mem_cons_self p rest, hpk, hs, by rw [ha, ha1], ?_⟩
          rw [hv, hv1]
          simp only [hps, if_true, List.map_cons, List.sum_cons]
      | false =>
          have hpk : p.2.symbol ≠ k := by simpa using hps
          have hstep : lookupA (aggAddHolding db p.1 m p.2) k = none := by
            rw [lookupA_aggAdd_ne db p.1 m p.2 k hpk]
            exact hnone
          obtain ⟨q, hq, hqk⟩ := hex
          have hq2 : q ∈ rest := by
            rcases List.mem_cons.mp hq with hq1 | hq1
            · exact absurd (hq1 ▸ hqk) hpk
            · exact hq1
          obtain ⟨e, p0, he, hp0, hp0k, hs, ha, hv⟩ := ih _ hstep ⟨q, hq2, hqk⟩
          refine ⟨e, p0, he, List.mem_cons_of_mem p hp0, hp0k, hs, ha, ?_⟩
          rw [hv]
          simp only [hps, Bool.false_eq_true, if_false]

theorem agg_nested_pairs (db : Db) :
    ∀ (snaps : List Snapshot) (m0 : List (String × AggEntry)),
    snaps.foldl (fun m s => (holdingsOf db s.id).foldl (aggAddHolding db s) m) m0 =
    (snapHoldingPairs db snaps).foldl (fun m p => aggAddHolding db p.1 m p.2) m0 := by
  intro snaps
  induction snaps with
  | nil => intro m0; rfl
  | cons s rest ih =>
      intro m0
      simp only [List.foldl_cons, snapHoldingPairs, List.foldl_append, List.foldl_map]
      exact ih _

theorem mem_snapHoldingPairs (db : Db) :
    ∀ (snaps : List Snapshot) (p : Snapshot × Holding),
    p ∈ snapHoldingPairs db snaps ↔
      p.1 ∈ snaps ∧ p.2 ∈ holdingsOf db p.1.id := by
  intro snaps
  induction snaps with
  | nil => intro p; simp [snapHoldingPairs]
  | cons s rest ih =>
      intro p
      simp only [snapHoldingPairs, List.mem_append, List.mem_map, ih, List.mem_cons]
      constructor
      · rintro (⟨h, hh, rfl⟩ | ⟨h1, h2⟩)
        · exact ⟨Or.inl rfl, hh⟩
        · exact ⟨Or.inr h1, h2⟩
      · rintro ⟨hs | hs, hh⟩
        · exact Or.inl ⟨p.2, by rw [← hs]; exact hh, by rw [← hs]⟩
        · exact Or.inr ⟨hs, hh⟩

theorem mem_insertAggStable (c x : AggEntry) :
    ∀ (l : List AggEntry), x ∈ insertAggStable l c ↔ x = c ∨ x ∈ l := by
  intro l
  induction l with
  | nil => simp [insertAggStable]
  | cons d ds ih =>
      simp only [insertAggStable]
      cases hlt : aggKeyLt c d with
      | true =>
          simp only [hlt, if_true, List.mem_cons]
      | false =>
          simp only [hlt, Bool.false_eq_true, if_false, List.mem_cons, ih]
          constructor
          · rintro (h1 | h2 | h3)
            · exact Or.inr (Or.inl h1)
            · exact Or.inl h2
            · exact Or.inr (Or.inr h3)
          · rintro (h1 | h2 | h3)
            · exact Or.inr (Or.inl h1)
            · exact Or.inl h2
            · exact Or.inr (Or.inr h3)

theorem mem_sortAggEntries (x : AggEntry) (l : List AggEntry) :
    x ∈ sortAggEntries l ↔ x ∈ l := by
  unfold sortAggEntries
  suffices h : ∀ (l : List AggEntry) (acc : List AggEntry),
      x ∈ l.foldl insertAggStable acc ↔ x ∈ acc ∨ x ∈ l by
    rw [h l []]
    simp
  intro l
  induction l with
  | nil => intro acc; simp
  | cons d ds ih =>
      intro acc
      simp only [List.foldl_cons, ih, mem_insertAggStable, List.mem_cons]
      tauto

theorem lookupA_some_mem {α : Type} {m : List (String × α)} {k : String} {e : α}
    (h : lookupA m k = some e) : ∃ q ∈ m, q.1 = k ∧ q.2 = e := by
  induction m with
  | nil => exact absurd h (by simp [lookupA, List.find?])
  | cons p rest ih =>
      unfold lookupA at h
      rw [List.find?_cons] at h
      cases hb : (p.1 == k) with
      | true =>
          rw [hb] at h
          exact ⟨p, List.mem_cons_self p rest, by simpa using hb, by simpa using h⟩
      | false =>
          rw [hb] at h
          obtain ⟨q, hq, hq1, hq2⟩ := ih h
          exact ⟨q, List.mem_cons_of_mem p hq, hq1, hq2⟩

theorem aggFinalize_fields (tpv : ℚ) (d0 : AggEntry) :
    (aggFinalize tpv d0).symbol = d0.symbol ∧
    (aggFinalize tpv d0).assetType = d0.assetType ∧
    (aggFinalize tpv d0).totalValue = d0.totalValue := by
  unfold aggFinalize
  repeat' split
  all_goals exact ⟨rfl, rfl, rfl⟩

theorem applyOverlapFlag_fields (ov : List (String × OverlapRecord)) (h : AggEntry) :
    (applyOverlapFlag ov h).symbol = h.symbol ∧
    (applyOverlapFlag ov h).assetType = h.assetType ∧
    (applyOverlapFlag ov h).totalValue = h.totalValue := by
  unfold applyOverlapFlag
  cases lookupA ov h.symbol <;> exact ⟨rfl, rfl, rfl⟩

theorem unresolvedFund_in_investments (db : Db) (s0 : Snapshot) (h0 : Holding)
    (hs0 : s0 ∈ latestSnapshots db) (hh0 : h0 ∈ holdingsOf db s0.id)
    (hsym : h0.symbol ≠ "")
    (hnoncash : ∀ p ∈ snapHoldingPairs db (latestSnapshots db),
      p.2.symbol = h0.symbol → p.2.assetType ≠ "cash") :
    ∃ e ∈ (getAggregatedHoldings db).investmentHoldings,
      e.symbol = h0.symbol ∧
      e.totalValue = (((snapHoldingPairs db (latestSnapshots db)).filter
        (fun p => p.2.symbol == h0.symbol)).map (fun p => p.2.totalValue)).sum ∧
      (s0, h0) ∈ (snapHoldingPairs db (latestSnapshots db)).filter
        (fun p => p.2.symbol == h0.symbol) := by
  have hker : (s0, h0) ∈ snapHoldingPairs db (latestSnapshots db) :=
    (mem_snapHoldingPairs db (latestSnapshots db) (s0, h0)).mpr ⟨hs0, hh0⟩
  have hselne : (latestSnapshots db).isEmpty = false := by
    cases hc : latestSnapshots db with
    | nil => rw [hc] at hs0; exact absurd hs0 (by simp)
    | cons a l => rfl
  simp only [getAggregatedHoldings, hselne, Bool.false_eq_true, if_false]
  simp only [aggregateBySymbol]
  rw [agg_nested_pairs]
  obtain ⟨e, p0, he, hp0, hp0k, hesym, heat, hetv⟩ :=
    agg_fold_first db h0.symbol hsym (snapHoldingPairs db (latestSnapshots db)) [] rfl
      ⟨(s0, h0), hker, rfl⟩
  obtain ⟨q, hqM, hq1, hq2⟩ := lookupA_some_mem he
  refine ⟨_, List.mem_filter.mpr ⟨List.mem_map.mpr
    ⟨_, (mem_sortAggEntries _ _).mpr (List.mem_map.mpr ⟨q, hqM, rfl⟩), rfl⟩, ?_⟩,
    ?_, ?_, ?_⟩
  · rw [show ∀ (ov : List (String × OverlapRecord)) (x : AggEntry),
        (applyOverlapFlag ov x).assetType = x.assetType from
        fun ov x => (applyOverlapFlag_fields ov x).2.1]
    rw [(aggFinalize_fields _ _).2.1, hq2, heat]
    have hnc := hnoncash p0 hp0 hp0k
    simpa using hnc
  · rw [(applyOverlapFlag_fields _ _).1, (aggFinalize_fields _ _).1, hq2]
    exact hesym
  · rw [(applyOverlapFlag_fields _ _).2.2, (aggFinalize_fields _ _).2.2, hq2]
    exact hetv
  · exact List.mem_filter.mpr ⟨hker, by simp⟩

/-- `total_investments` is by construction the sum of the investment
partition's values. -/
theorem totalInvestments_eq_sum (db : Db) :
    (getAggregatedHoldings db).totalInvestments =
      ((getAggregatedHoldings db).investmentHoldings.map (fun e => e.totalValue)).sum := by
  simp only [getAggregatedHoldings]
  split
  · simp
  · rfl

/-- C7: when the fund-constituent resolver returns `None` for a fund
holding, the orchestrator still marks that holding `underlying_parsed =
true` with no stored constituents (terminal give-up); a holding without
stored constituents contributes nothing to the aggregator's
underlying-holdings map; and such a holding still contributes its full
`total_value` to the investment side: its symbol's aggregated entry is an
investment holding whose value is the sum over every selected holding with
that symbol — the failed fund included — and `total_investments` sums
exactly those entries. -/
theorem C7_giveup_semantics :
    (∀ (search : String → Option FundInfo) (table : String → Option (List ProviderRow))
        (provider : String → Option RawInfo) (db : List Holding) (cache : Cache)
        (tracker0 : Tracker) (snapshotId : ℕ) (h0 : Holding),
        (∀ x ∈ db, ∀ y ∈ db, x.id = y.id → x = y) →
        h0 ∈ db → h0.portfolioSnapshotId = snapshotId →
        (h0.assetType = "etf" ∨ h0.assetType = "mutual_fund") →
        h0.underlyingParsed = false → h0.underlying = none →
        resolveHolding search table h0.symbol h0.assetType h0.totalValue = none →
        ∀ x ∈ (resolveSnapshotHoldings search table provider (fun _ => true) db cache
            tracker0 snapshotId).db, x.id = h0.id →
          x.underlyingParsed = true ∧ x.underlying = none) ∧
    (∀ (db : Db) (hs1 hs2 : List Holding) (h : Holding) (aggregated : List AggEntry),
        h.underlying = none →
        getUnderlyingHoldings { db with holdings := hs1 ++ h :: hs2 } aggregated =
        getUnderlyingHoldings { db with holdings := hs1 ++ hs2 } aggregated) ∧
    (∀ db : Db, (getAggregatedHoldings db).totalInvestments =
        ((getAggregatedHoldings db).investmentHoldings.map (fun e => e.totalValue)).sum) ∧
    (∀ (db : Db) (s0 : Snapshot) (h0 : Holding),
        s0 ∈ latestSnapshots db → h0 ∈ holdingsOf db s0.id → h0.symbol ≠ "" →
        (∀ p ∈ snapHoldingPairs db (latestSnapshots db),
          p.2.symbol = h0.symbol → p.2.assetType ≠ "cash") →
        ∃ e ∈ (getAggregatedHoldings db).investmentHoldings,
          e.symbol = h0.symbol ∧
          e.totalValue = (((snapHoldingPairs db (latestSnapshots db)).filter
            (fun p => p.2.symbol == h0.symbol)).map (fun p => p.2.totalValue)).sum ∧
          (s0, h0) ∈ (snapHoldingPairs db (latestSnapshots db)).filter
            (fun p => p.2.symbol == h0.symbol)) :=
  ⟨fun search table provider db cache tracker0 snapshotId h0
      hinj hmem hsnap htype hparsed hund hres =>
     resolveNone_marks_parsed search table provider db cache tracker0 snapshotId h0
       hinj hmem hsnap htype hparsed hund hres,
   fun db hs1 hs2 h aggregated hu =>
     getUnderlying_ignores_unparsed db hs1 hs2 h hu aggregated,
   fun db => totalInvestments_eq_sum db,
   fun db s0 h0 hs0 hh0 hsym hnc =>
     unresolvedFund_in_investments db s0 h0 hs0 hh0 hsym hnc⟩

/-- C7 witness: the give-up invariant at a concrete failed ETF run, and
the aggregation facts at the concrete two-holding database. -/
theorem C7_giveup_semantics_witness :
    (∀ x ∈ (resolveSnapshotHoldings (fun _ => none) (fun _ => none) (fun _ => none)
        (fun _ => true) [c3Fund] [] {} 5).db, x.id = c3Fund.id →
      x.underlyingParsed = true ∧ x.underlying = none) ∧
    getUnderlyingHoldings { c2Db with holdings := [] ++ c3Fund :: [c2AAPL, c2VTI] }
        (aggregateBySymbol c2Db (latestSnapshots c2Db)) =
      getUnderlyingHoldings { c2Db with holdings := [] ++ [c2AAPL, c2VTI] }
        (aggregateBySymbol c2Db (latestSnapshots c2Db)) ∧
    (getAggregatedHoldings c2Db).totalInvestments =
      ((getAggregatedHoldings c2Db).investmentHoldings.map (fun e => e.totalValue)).sum ∧
    ∃ e ∈ (getAggregatedHoldings c2Db).investmentHoldings,
      e.symbol = c2VTI.symbol ∧
      e.totalValue = (((snapHoldingPairs c2Db (latestSnapshots c2Db)).filter
        (fun p => p.2.symbol == c2VTI.symbol)).map (fun p => p.2.totalValue)).sum ∧
      (⟨30, 3, 1⟩, c2VTI) ∈ (snapHoldingPairs c2Db (latestSnapshots c2Db)).filter
        (fun p => p.2.symbol == c2VTI.symbol) :=
  ⟨C7_giveup_semantics.1 (fun _ => none) (fun _ => none) (fun _ => none)
     [c3Fund] [] {} 5 c3Fund
     (of_decide_eq_true (by with_unfolding_all rfl))
     (of_decide_eq_true (by with_unfolding_all rfl))
     (by with_unfolding_all rfl)
     (Or.inl (by with_unfolding_all rfl))
     (by with_unfolding_all rfl)
     (by with_unfolding_all rfl)
     (by with_unfolding_all rfl),
   C7_giveup_semantics.2.1 c2Db [] [c2AAPL, c2VTI] c3Fund
     (aggregateBySymbol c2Db (latestSnapshots c2Db))
     (by with_unfolding_all rfl),
   C7_giveup_semantics.2.2.1 c2Db,
   C7_giveup_semantics.2.2.2 c2Db ⟨30, 3, 1⟩ c2VTI
     (of_decide_eq_true (by with_unfolding_all rfl))
     (of_decide_eq_true (by with_unfolding_all rfl))
     (of_decide_eq_true (by with_unfolding_all rfl))
     (of_decide_eq_true (by with_unfolding_all rfl))⟩

theorem mem_latestSnapshots (db : Db) (s : Snapshot) :
    s ∈ latestSnapshots db ↔
      s ∈ db.snapshots ∧ isActiveAccountOf db s = true ∧
      ∀ t ∈ db.snapshots, t.brokerAccountId = s.brokerAccountId →
        t.snapshotDate ≤ s.snapshotDate := by
  unfold latestSnapshots isLatestOfAccount accountSnapshotDates
  rw [List.mem_filter, Bool.and_eq_true]
  constructor
  · rintro ⟨hmem, hall, hact⟩
    refine ⟨hmem, hact, ?_⟩
    intro t ht htaid
    rw [List.all_eq_true] at hall
    have := hall t.snapshotDate
      (List.mem_map.mpr ⟨t, List.mem_filter.mpr ⟨ht, by simpa using htaid⟩, rfl⟩)
    simpa using this
  · rintro ⟨hmem, hact, hle⟩
    refine ⟨hmem, ?_, hact⟩
    rw [List.all_eq_true]
    intro d hd
    obtain ⟨t, ht, rfl⟩ := List.mem_map.mp hd
    have ht2 := List.mem_filter.mp ht
    have haid : t.brokerAccountId = s.brokerAccountId := by simpa using ht2.2
    simpa using hle t ht2.1 haid

theorem latestSnapshotOfAccount_spec (db : Db) (aid : ℕ) (u : Snapshot)
    (h : latestSnapshotOfAccount db aid = some u) :
    u ∈ db.snapshots ∧ u.brokerAccountId = aid ∧
    ∀ t ∈ db.snapshots, t.brokerAccountId = aid →
      t.snapshotDate ≤ u.snapshotDate := by
  unfold latestSnapshotOfAccount at h
  have hmem := List.mem_of_find?_eq_some h
  have hpred := List.find?_some h
  have hm2 := List.mem_filter.mp hmem
  refine ⟨hm2.1, by simpa using hm2.2, ?_⟩
  intro t ht htaid
  rw [List.all_eq_true] at hpred
  have := hpred t (List.mem_filter.mpr ⟨ht, by simpa using htaid⟩)
  simpa using this

theorem underlyingSnapshotIds_src (db : Db) :
    ∀ (bs : List BrokerContribution) (acc : List ℕ) (sid : ℕ),
    sid ∈ bs.foldl (fun ids bi =>
      match db.accounts.find? (fun a => a.brokerName == bi.broker) with
      | some acct =>
          match latestSnapshotOfAccount db acct.id with
          | some sn => ids ++ [sn.id]
          | none => ids
      | none => ids) acc →
    sid ∈ acc ∨ ∃ bi ∈ bs, ∃ a,
      db.accounts.find? (fun x => x.brokerName == bi.broker) = some a ∧
      ∃ u, latestSnapshotOfAccount db a.id = some u ∧ sid = u.id := by
  intro bs
  induction bs with
  | nil => intro acc sid h; exact Or.inl h
  | cons b rest ih =>
      intro acc sid h
      simp only [List.foldl_cons] at h
      cases hfind : db.accounts.find? (fun a => a.brokerName == b.broker) with
      | none =>
          rw [hfind] at h
          simp only [] at h
          rcases ih acc sid h with h1 | ⟨bi, hbi, rest'⟩
          · exact Or.inl h1
          · exact Or.inr ⟨bi, List.mem_cons_of_mem b hbi, rest'⟩
      | some a =>
          rw [hfind] at h
          simp only [] at h
          cases hlat : latestSnapshotOfAccount db a.id with
          | none =>
              rw [hlat] at h
              simp only [] at h
              rcases ih acc sid h with h1 | ⟨bi, hbi, rest'⟩
              · exact Or.inl h1
              · exact Or.inr ⟨bi, List.mem_cons_of_mem b hbi, rest'⟩
          | some u =>
              rw [hlat] at h
              simp only [] at h
              rcases ih (acc ++ [u.id]) sid h with h1 | ⟨bi, hbi, rest'⟩
              · rcases List.mem_append.mp h1 with h2 | h2
                · exact Or.inl h2
                · exact Or.inr ⟨b, List.mem_cons_self b rest, a, hfind, u, hlat,
                    by simpa using h2⟩
              · exact Or.inr ⟨bi, List.mem_cons_of_mem b hbi, rest'⟩

theorem underlyingSnapshotIds_spec (db : Db) (entry : AggEntry) (sid : ℕ)
    (h : sid ∈ underlyingSnapshotIds db entry) :
    ∃ bi ∈ entry.brokers, ∃ a,
      db.accounts.find? (fun x => x.brokerName == bi.broker) = some a ∧
      ∃ u, latestSnapshotOfAccount db a.id = some u ∧ sid = u.id := by
  unfold underlyingSnapshotIds at h
  rcases underlyingSnapshotIds_src db entry.brokers [] sid h with h1 | h2
  · exact absurd h1 (by simp)
  · exact h2

/-- C6 (amended): membership in the selected snapshot set is exactly
"snapshot of an active account carrying its account's maximal date"; the
per-account `first()` query returns a maximal-date snapshot of that
account; and every snapshot id the underlying-holdings pass reads comes
from the most recent snapshot of the FIRST account bearing a contributing
broker's name — with no is_active condition, so an inactive account's
latest snapshot can feed the underlying map. -/
theorem C6_latest_snapshot_selection :
    (∀ (db : Db) (s : Snapshot),
      s ∈ latestSnapshots db ↔
        s ∈ db.snapshots ∧ isActiveAccountOf db s = true ∧
        ∀ t ∈ db.snapshots, t.brokerAccountId = s.brokerAccountId →
          t.snapshotDate ≤ s.snapshotDate) ∧
    (∀ (db : Db) (aid : ℕ) (u : Snapshot),
      latestSnapshotOfAccount db aid = some u →
      u ∈ db.snapshots ∧ u.brokerAccountId = aid ∧
      ∀ t ∈ db.snapshots, t.brokerAccountId = aid →
        t.snapshotDate ≤ u.snapshotDate) ∧
    (∀ (db : Db) (entry : AggEntry) (sid : ℕ),
      sid ∈ underlyingSnapshotIds db entry →
      ∃ bi ∈ entry.brokers, ∃ a,
        db.accounts.find? (fun x => x.brokerName == bi.broker) = some a ∧
        ∃ u, latestSnapshotOfAccount db a.id = some u ∧ sid = u.id) :=
  ⟨mem_latestSnapshots, latestSnapshotOfAccount_spec, underlyingSnapshotIds_spec⟩

/-- Two same-named accounts, the first inactive with an older snapshot:
the inactive account's holding reaches the underlying map of
`get_aggregated_holdings`, and deleting that inactive account's snapshot
changes the output — refuting "only the most recent snapshot per active
account contributes to every part of the output". -/
theorem C6_counterexample :
    isActiveAccountOf c6Db c6SnapOld = false ∧
    underlyingSnapshotIds c6Db
      ⟨"VTI", "V", 0, 0, 0, "etf", [⟨"merrill", "Merrill", 1, 1, 1, none⟩],
       true, false, 0, none, none, 0, 0, 0, false, none⟩ = [c6SnapOld.id] ∧
    lookupA (getAggregatedHoldings c6Db).underlyingHoldings "AAPL" =
      some ⟨"AAPL", "Apple", 500, [⟨"VTI", 1/2, 500⟩]⟩ ∧
    lookupA (getAggregatedHoldings c6DbDeleted).underlyingHoldings "AAPL" = none ∧
    getAggregatedHoldings c6Db ≠ getAggregatedHoldings c6DbDeleted :=
  ⟨by with_unfolding_all rfl, by with_unfolding_all rfl, by with_unfolding_all rfl,
   by with_unfolding_all rfl, of_decide_eq_true (by with_unfolding_all rfl)⟩

/-- C6 witness: the amended theorem applied to the concrete two-account
database. -/
theorem C6_latest_snapshot_selection_witness :
    c6SnapNew ∈ latestSnapshots c6Db ∧
    (c6SnapOld ∈ c6Db.snapshots ∧ c6SnapOld.brokerAccountId = 1 ∧
      ∀ t ∈ c6Db.snapshots, t.brokerAccountId = 1 →
        t.snapshotDate ≤ c6SnapOld.snapshotDate) ∧
    (∃ bi ∈ ([⟨"merrill", "Merrill", 1, 1, 1, none⟩] : List BrokerContribution), ∃ a,
      c6Db.accounts.find? (fun x => x.brokerName == bi.broker) = some a ∧
      ∃ u, latestSnapshotOfAccount c6Db a.id = some u ∧ c6SnapOld.id = u.id) :=
  ⟨(C6_latest_snapshot_selection.1 c6Db c6SnapNew).mpr
     ⟨of_decide_eq_true (by with_unfolding_all rfl),
      by with_unfolding_all rfl,
      of_decide_eq_true (by with_unfolding_all rfl)⟩,
   C6_latest_snapshot_selection.2.1 c6Db 1 c6SnapOld (by with_unfolding_all rfl),
   C6_latest_snapshot_selection.2.2 c6Db
     ⟨"VTI", "V", 0, 0, 0, "etf", [⟨"merrill", "Merrill", 1, 1, 1, none⟩],
      true, false, 0, none, none, 0, 0, 0, false, none⟩ c6SnapOld.id
     (of_decide_eq_true (by with_unfolding_all rfl))⟩
